import Mathlib

/-!
Shallow embedding of `src/feature_extraction.py` (Visio-Toolkit).

Images are rational-valued rasters; all pixel arithmetic that the Python
code performs in `float64` is modelled exactly over `ℚ`.  The OpenCV
collaborators that the code calls (`cvtColor`, `Sobel`, `boxFilter`) are
embedded by their documented semantics: `cvtColor(BGR2GRAY)` demands a 3- or
4-channel input and otherwise raises, `Sobel`/`boxFilter` are correlations
with `BORDER_REFLECT_101` border handling.  `numpy` slicing follows Python
slice-index resolution (negative bounds count from the end).
-/

namespace Visio

/-- A raster image as the detectors receive it: `H × W × C` samples,
`px y x c` is the sample of channel `c` at row `y`, column `x`. -/
structure Img where
  H : ℕ
  W : ℕ
  C : ℕ
  px : ℕ → ℕ → ℕ → ℚ

/-- A single-channel raster, as produced by `cv2.cvtColor(..., COLOR_BGR2GRAY)`. -/
structure Gray where
  H : ℕ
  W : ℕ
  px : ℕ → ℕ → ℚ

/-- The hard failure raised by the OpenCV conversion when the channel count
does not match the requested conversion. -/
inductive CvErr where
  | shapeMismatch
deriving DecidableEq

/-- The grayscale field `0.299 R + 0.587 G + 0.114 B` of a BGR image
(channel 0 = blue, 1 = green, 2 = red). -/
def toGray (img : Img) : Gray :=
  ⟨img.H, img.W, fun y x =>
    (299/1000 : ℚ) * img.px y x 2 + (587/1000 : ℚ) * img.px y x 1
      + (114/1000 : ℚ) * img.px y x 0⟩

/-- Embeds `cv2.cvtColor(img, cv2.COLOR_BGR2GRAY)`: accepts a 3- or 4-channel
image and raises otherwise. -/
def cvtColorBGR2GRAY (img : Img) : Except CvErr Gray :=
  if img.C = 3 ∨ img.C = 4 then .ok (toGray img) else .error .shapeMismatch

/-- OpenCV `borderInterpolate` for `BORDER_REFLECT_101` (the default border
of `Sobel` and `boxFilter`): reflection without repeating the edge sample,
with OpenCV special case `len == 1 → 0`. -/
def borderReflect101 (n : ℕ) (i : ℤ) : ℕ :=
  if n ≤ 1 then 0
  else
    let m := (i % (2 * ((n : ℤ) - 1))).toNat
    if m < n then m else 2 * (n - 1) - m

/-- Border-extended pixel access used by the filtering stages. -/
def pxB (g : Gray) (y x : ℤ) : ℚ := g.px (borderReflect101 g.H y) (borderReflect101 g.W x)

/-- Embeds `cv2.Sobel(img, cv2.CV_64F, 1, 0, ksize=3)`: correlation with the
kernel `[[-1,0,1],[-2,0,2],[-1,0,1]]`. -/
def sobelX (g : Gray) (y x : ℕ) : ℚ :=
  (pxB g ((y:ℤ) - 1) ((x:ℤ) + 1) - pxB g ((y:ℤ) - 1) ((x:ℤ) - 1))
  + 2 * (pxB g (y:ℤ) ((x:ℤ) + 1) - pxB g (y:ℤ) ((x:ℤ) - 1))
  + (pxB g ((y:ℤ) + 1) ((x:ℤ) + 1) - pxB g ((y:ℤ) + 1) ((x:ℤ) - 1))

/-- Embeds `cv2.Sobel(img, cv2.CV_64F, 0, 1, ksize=3)`: correlation with the
kernel `[[-1,-2,-1],[0,0,0],[1,2,1]]`. -/
def sobelY (g : Gray) (y x : ℕ) : ℚ :=
  (pxB g ((y:ℤ) + 1) ((x:ℤ) - 1) - pxB g ((y:ℤ) - 1) ((x:ℤ) - 1))
  + 2 * (pxB g ((y:ℤ) + 1) (x:ℤ) - pxB g ((y:ℤ) - 1) (x:ℤ))
  + (pxB g ((y:ℤ) + 1) ((x:ℤ) + 1) - pxB g ((y:ℤ) - 1) ((x:ℤ) + 1))

/-- The characteristic polynomial `det (M - μ I)` of the per-pixel structure
tensor `M = [[Ix·Ix, Ix·Iy], [Ix·Iy, Iy·Iy]]` built in
`lambda_minus_corner_detection` (lines 25-30). -/
def structCharPoly (ix iy μ : ℚ) : ℚ :=
  (ix * ix - μ) * (iy * iy - μ) - (ix * iy) * (ix * iy)

/-- The two eigenvalues that `np.linalg.eig` returns for the per-pixel
structure tensor, in exact arithmetic.  Since `det M = (ix·ix)·(iy·iy) -
(ix·iy)² = 0`, the characteristic polynomial factors as
`μ · (μ - (ix·ix + iy·iy))`, so the eigenvalues are the trace and `0`. -/
def eigPair (ix iy : ℚ) : ℚ × ℚ := (ix * ix + iy * iy, 0)

/-- Line 36: `lambda_minus = np.minimum(eigenvals[:,:,0], eigenvals[:,:,1])`. -/
def lambdaMinusResp (ix iy : ℚ) : ℚ := min (eigPair ix iy).1 (eigPair ix iy).2

/-- The per-pixel lambda-minus response map of a grayscale image. -/
def lambdaResponseMap (g : Gray) : ℕ → ℕ → ℚ :=
  fun y x => lambdaMinusResp (sobelX g y x) (sobelY g y x)

/-- The maximum of a list of rationals, as `np.max` computes it on the
flattened array (undefined by numpy on an empty array; we return `0`). -/
def listMax : List ℚ → ℚ
  | [] => 0
  | a :: t => t.foldl max a

/-- All values of an `H × W` field in row-major (C) order. -/
def gridVals (R : ℕ → ℕ → ℚ) (H W : ℕ) : List ℚ :=
  (List.range H).flatMap (fun y => (List.range W).map (fun x => R y x))

/-- Embeds `np.max` of an `H × W` response map. -/
def gridMax (R : ℕ → ℕ → ℚ) (H W : ℕ) : ℚ := listMax (gridVals R H W)

/-- Line 52: the maximum over the `(2w+1) × (2w+1)` window
`R[y-w : y+w+1, x-w : x+w+1]` centered at `(x, y)` (callers guarantee
`w ≤ y` and `w ≤ x`). -/
def nmsWindowMax (R : ℕ → ℕ → ℚ) (w y x : ℕ) : ℚ :=
  listMax ((List.range (2*w+1)).flatMap (fun dy =>
    (List.range (2*w+1)).map (fun dx => R (y - w + dy) (x - w + dx))))

/-- Lines 39-55 of `lambda_minus_corner_detection`: threshold at
`th_percentage * np.max(response)` and scan the interior pixels in row-major
order, keeping `(x, y)` when the response strictly exceeds the threshold and
equals its window maximum. -/
def lambdaSelect (R : ℕ → ℕ → ℚ) (H W w : ℕ) (t : ℚ) : List (ℕ × ℕ) :=
  (List.range (H - 2*w)).flatMap (fun i =>
    (List.range (W - 2*w)).filterMap (fun j =>
      if t * gridMax R H W < R (w+i) (w+j)
          ∧ R (w+i) (w+j) = nmsWindowMax R w (w+i) (w+j) then
        some (w+j, w+i)
      else none))

/-- Embeds `lambda_minus_corner_detection` (lines 5-55). -/
def lambda_minus_corner_detection (img : Img) (w : ℕ) (t : ℚ) :
    Except CvErr (List (ℕ × ℕ)) :=
  (cvtColorBGR2GRAY img).map (fun g => lambdaSelect (lambdaResponseMap g) g.H g.W w t)

/-- Embeds `cv2.boxFilter(f, -1, (w, w))` at one pixel: the normalized
(averaged) sum over the `w × w` window anchored at the center
(`anchor = w / 2`), with `BORDER_REFLECT_101` handling. -/
def boxFilter (H W : ℕ) (f : ℕ → ℕ → ℚ) (w : ℕ) (y x : ℕ) : ℚ :=
  (((List.range w).map (fun dy =>
    ((List.range w).map (fun dx =>
      f (borderReflect101 H ((y:ℤ) + dy - (w/2 : ℕ)))
        (borderReflect101 W ((x:ℤ) + dx - (w/2 : ℕ))))).sum)).sum) / ((w : ℚ) * w)

/-- Line 67: `Sx2 = cv2.boxFilter(Ix2, -1, (window_size, window_size))`. -/
def harrisSx2 (g : Gray) (w : ℕ) : ℕ → ℕ → ℚ :=
  boxFilter g.H g.W (fun y x => sobelX g y x * sobelX g y x) w

/-- Line 68: `Sy2 = cv2.boxFilter(Iy2, -1, (window_size, window_size))`. -/
def harrisSy2 (g : Gray) (w : ℕ) : ℕ → ℕ → ℚ :=
  boxFilter g.H g.W (fun y x => sobelY g y x * sobelY g y x) w

/-- Line 69: `Sxy = cv2.boxFilter(Ixy, -1, (window_size, window_size))`. -/
def harrisSxy (g : Gray) (w : ℕ) : ℕ → ℕ → ℚ :=
  boxFilter g.H g.W (fun y x => sobelX g y x * sobelY g y x) w

/-- Line 71: `R = (Sx2 * Sy2 - Sxy ** 2) - k * (Sx2 + Sy2) ** 2`. -/
def harrisR (g : Gray) (w : ℕ) (k : ℚ) (y x : ℕ) : ℚ :=
  (harrisSx2 g w y x * harrisSy2 g w y x - harrisSxy g w y x * harrisSxy g w y x)
  - k * (harrisSx2 g w y x + harrisSy2 g w y x)^2

/-- Lines 74-75: `np.argwhere(R > th_percentage * np.max(R))` — every pixel
above the threshold, emitted as `(row, column)` in row-major order. -/
def harrisSelect (R : ℕ → ℕ → ℚ) (H W : ℕ) (t : ℚ) : List (ℕ × ℕ) :=
  (List.range H).flatMap (fun r =>
    (List.range W).filterMap (fun c =>
      if t * gridMax R H W < R r c then some (r, c) else none))

/-- Embeds `harris_corner_detection` (lines 58-77). -/
def harris_corner_detection (img : Img) (w : ℕ) (k t : ℚ) :
    Except CvErr (List (ℕ × ℕ)) :=
  (cvtColorBGR2GRAY img).map (fun g => harrisSelect (harrisR g w k) g.H g.W t)

/-- Python slice-index resolution for a step-1 slice over an axis of length
`n`: a negative bound counts from the end (clamped below at `0`), a
non-negative one is clamped above at `n`. -/
def pySliceIdx (n : ℕ) (v : ℤ) : ℕ :=
  if v < 0 then (v + n).toNat else min v.toNat n

/-- Lines 96-106 of `extract_feature_descriptors`, for one corner `(x, y)`:
compute the slice bounds `max(0, x - p/2)`, `min(W, x + p/2)` (and the
vertical analogues), crop with numpy slicing, keep the patch only when its
shape is exactly `p × p`, and flatten it in row-major order. -/
def cropCorner (g : Gray) (p : ℕ) (c : ℤ × ℤ) : Option (List ℚ) :=
  let x0 := pySliceIdx g.W (max 0 (c.1 - (p/2 : ℕ)))
  let x1 := pySliceIdx g.W (c.1 + (p/2 : ℕ))
  let y0 := pySliceIdx g.H (max 0 (c.2 - (p/2 : ℕ)))
  let y1 := pySliceIdx g.H (c.2 + (p/2 : ℕ))
  if y1 - y0 = p ∧ x1 - x0 = p then
    some ((List.range p).flatMap (fun r => (List.range p).map (fun cc => g.px (y0 + r) (x0 + cc))))
  else none

/-- The descriptor loop of `extract_feature_descriptors` on the grayscale
image: surviving patches in the order of the corner list. -/
def extractDescriptors (g : Gray) (corners : List (ℤ × ℤ)) (p : ℕ) : List (List ℚ) :=
  corners.filterMap (cropCorner g p)

/-- Embeds `extract_feature_descriptors` (lines 80-109). -/
def extract_feature_descriptors (img : Img) (corners : List (ℤ × ℤ)) (p : ℕ) :
    Except CvErr (List (List ℚ)) :=
  (cvtColorBGR2GRAY img).map (fun g => extractDescriptors g corners p)

/-- The matching method selector of `match_features` (the code treats the
string `method == 'SSD'` as SSD and anything else as NCC). -/
inductive MatchMethod where
  | SSD
  | NCC
deriving DecidableEq

/-- Elementwise dot product `np.sum(a * b)`. -/
def dotProd (a b : List ℚ) : ℚ := ((a.zip b).map (fun q => q.1 * q.2)).sum

/-- Squared Euclidean norm, so `np.linalg.norm a = Real.sqrt (ssq a)`. -/
def ssq (a : List ℚ) : ℚ := dotProd a a

/-- Line 131: `score = np.sum((descriptor1 - descriptor2) ** 2)`. -/
def ssdScore (a b : List ℚ) : ℚ := ((a.zip b).map (fun q => (q.1 - q.2)^2)).sum

/-- The exact content of the float NCC score of lines 136-139: the score is
`dotProd a b / Real.sqrt (ssq a * ssq b)`, represented by the pair
(numerator, square of denominator). -/
def nccScore (a b : List ℚ) : ℚ × ℚ := (dotProd a b, ssq a * ssq b)

/-- Line 132: the strict comparison `score < best_match_score`, with
`float('inf')` modelled by `⊤`. -/
def ssdBetter (s t : WithTop ℚ) : Bool := decide (s < t)

/-- Line 140: the strict comparison `score > best_match_score` between two
NCC scores in `(numerator, squared denominator)` representation.  A
non-positive squared denominator means a zero-norm descriptor, for which
the float code computes `score = 0/0 = nan`, and `nan > best` is false, so
the comparison yields `false` (a nan score is likewise never stored as the
best, so a comparison against a stored nan cannot arise; it is also
`false`).  For pairs with positive second components this decides
`s.1 / sqrt s.2 > t.1 / sqrt t.2` exactly (see `nccGtB_iff`). -/
def nccGtB (s t : ℚ × ℚ) : Bool :=
  if s.2 ≤ 0 then false
  else if t.2 ≤ 0 then false
  else if 0 ≤ s.1 then
    if 0 ≤ t.1 then decide (t.1^2 * s.2 < s.1^2 * t.2) else true
  else
    if 0 ≤ t.1 then false else decide (s.1^2 * t.2 < t.1^2 * s.2)

/-- The inner loop of `match_features` (lines 129-142): scan the scores of
the candidates in order, replacing the current best index and score exactly
when the candidate score is strictly better. -/
def bestAux {σ : Type} (better : σ → σ → Bool) :
    List σ → ℕ → Option ℕ × σ → Option ℕ × σ
  | [], _, acc => acc
  | s :: rest, j, acc =>
    bestAux better rest (j+1) (if better s acc.2 then (some j, s) else acc)

/-- The SSD branch of the inner loop: best score starts at `float('inf')`. -/
def bestSSD (a : List ℚ) (B : List (List ℚ)) : Option ℕ × WithTop ℚ :=
  bestAux ssdBetter (B.map (fun b => ((ssdScore a b : ℚ) : WithTop ℚ))) 0 (none, ⊤)

/-- The NCC branch of the inner loop: best score starts at `-1`
(represented as `(-1, 1)`, that is `-1 / sqrt 1`). -/
def bestNCC (a : List ℚ) (B : List (List ℚ)) : Option ℕ × (ℚ × ℚ) :=
  bestAux nccGtB (B.map (fun b => nccScore a b)) 0 (none, (-1, 1))

/-- The outer loop of `match_features` (line 126): one `(i, best index)`
entry per descriptor of the first set, in order. -/
def matchAux (B : List (List ℚ)) (m : MatchMethod) :
    List (List ℚ) → ℕ → List (ℕ × Option ℕ)
  | [], _ => []
  | a :: rest, i =>
    (i, (match m with | .SSD => (bestSSD a B).1 | .NCC => (bestNCC a B).1))
      :: matchAux B m rest (i+1)

/-- Embeds `match_features` (lines 113-144). -/
def match_features (d1 d2 : List (List ℚ)) (m : MatchMethod) : List (ℕ × Option ℕ) :=
  matchAux d2 m d1 0

/-- Decidable equality on `Except`, so detector outcomes on concrete images
can be settled by `decide`. -/
instance {ε α : Type} [DecidableEq ε] [DecidableEq α] : DecidableEq (Except ε α)
  | .error e, .error f =>
    if h : e = f then .isTrue (congrArg Except.error h)
    else .isFalse (fun he => h (by injection he))
  | .error _, .ok _ => .isFalse (fun he => Except.noConfusion he)
  | .ok _, .error _ => .isFalse (fun he => Except.noConfusion he)
  | .ok a, .ok b =>
    if h : a = b then .isTrue (congrArg Except.ok h)
    else .isFalse (fun he => h (by injection he))

/-! ### Concrete test rasters -/

/-- A 1×1 all-zero 3-channel (BGR) image. -/
def imgZero3 : Img := ⟨1, 1, 3, fun _ _ _ => 0⟩

/-- A 2×2 all-zero single-channel image. -/
def imgOne1 : Img := ⟨2, 2, 1, fun _ _ _ => 0⟩

/-- A 2×2 all-zero 3-channel (BGR) image. -/
def imgTwo3 : Img := ⟨2, 2, 3, fun _ _ _ => 0⟩

/-- A 2×4 grayscale ramp, pixel value `4y + x`. -/
def grayRamp24 : Gray := ⟨2, 4, fun y x => ((y*4+x : ℕ) : ℚ)⟩

/-- A 2×6 grayscale ramp, pixel value `6y + x`. -/
def grayRamp26 : Gray := ⟨2, 6, fun y x => ((y*6+x : ℕ) : ℚ)⟩

/-- A 4×4 grayscale ramp, pixel value `4y + x`. -/
def grayRamp44 : Gray := ⟨4, 4, fun y x => ((y*4+x : ℕ) : ℚ)⟩

/-- A 1×1 all-zero grayscale image. -/
def grayOne : Gray := ⟨1, 1, fun _ _ => 0⟩

/-! ### Helper lemmas -/

lemma ifSome_eq_some {α : Type} (c : Prop) [Decidable c] (a b : α) :
    ((if c then some a else none) = some b) ↔ (c ∧ a = b) := by
  split <;> simp_all

lemma mem_ifSome {α : Type} {c : Prop} [Decidable c] {a b : α}
    (h : b ∈ (if c then some a else none)) : b = a := by
  split at h <;> simp_all

lemma foldl_max_le_init {l : List ℚ} {acc : ℚ} (h : ∀ x ∈ l, x ≤ acc) :
    l.foldl max acc = acc := by
  induction l generalizing acc with
  | nil => rfl
  | cons a t ih =>
    simp only [List.foldl_cons]
    rw [max_eq_left (h a (by simp))]
    exact ih (fun x hx => h x (by simp [hx]))

lemma listMax_eq_zero {l : List ℚ} (h : ∀ x ∈ l, x = 0) : listMax l = 0 := by
  cases l with
  | nil => rfl
  | cons a t =>
    have ha : a = 0 := h a (by simp)
    simp only [listMax]
    rw [foldl_max_le_init (fun x hx => by rw [h x (by simp [hx]), ha])]
    exact ha

/-- Membership characterization of the lambda-minus selection loop:
exactly the interior pixels above threshold that attain their window
maximum, emitted as `(x, y)`. -/
lemma mem_lambdaSelect {R : ℕ → ℕ → ℚ} {H W w : ℕ} {t : ℚ} {x y : ℕ} :
    (x, y) ∈ lambdaSelect R H W w t ↔
      (w ≤ x ∧ x + w < W ∧ w ≤ y ∧ y + w < H ∧
        t * gridMax R H W < R y x ∧ R y x = nmsWindowMax R w y x) := by
  unfold lambdaSelect
  rw [List.mem_flatMap]
  constructor
  · rintro ⟨i, hi, hmem⟩
    rw [List.mem_range] at hi
    rw [List.mem_filterMap] at hmem
    obtain ⟨j, hj, hsome⟩ := hmem
    rw [List.mem_range] at hj
    rw [ifSome_eq_some] at hsome
    obtain ⟨⟨hth, hwin⟩, heq⟩ := hsome
    have hx : w + j = x := congrArg Prod.fst heq
    have hy : w + i = y := congrArg Prod.snd heq
    subst hx; subst hy
    exact ⟨by omega, by omega, by omega, by omega, hth, hwin⟩
  · rintro ⟨h1, h2, h3, h4, h5, h6⟩
    refine ⟨y - w, by rw [List.mem_range]; omega, ?_⟩
    rw [List.mem_filterMap]
    refine ⟨x - w, by rw [List.mem_range]; omega, ?_⟩
    have hyw : w + (y - w) = y := by omega
    have hxw : w + (x - w) = x := by omega
    rw [hyw, hxw, ifSome_eq_some]
    exact ⟨⟨h5, h6⟩, rfl⟩

/-- The lambda-minus selection loop emits corners in row-major scan order:
`y` strictly ascending across rows, `x` strictly ascending within a row. -/
lemma pairwise_lambdaSelect (R : ℕ → ℕ → ℚ) (H W w : ℕ) (t : ℚ) :
    List.Pairwise (fun p q : ℕ × ℕ => p.2 < q.2 ∨ (p.2 = q.2 ∧ p.1 < q.1))
      (lambdaSelect R H W w t) := by
  unfold lambdaSelect
  rw [List.pairwise_flatMap]
  constructor
  · intro i _
    rw [List.pairwise_filterMap]
    apply (List.pairwise_lt_range _).imp
    intro j j' hjj p hp q hq
    rw [mem_ifSome hp, mem_ifSome hq]
    exact Or.inr ⟨rfl, by omega⟩
  · apply (List.pairwise_lt_range _).imp
    intro i i' hii p hp q hq
    rw [List.mem_filterMap] at hp hq
    obtain ⟨j, _, hpj⟩ := hp
    obtain ⟨j', _, hqj⟩ := hq
    rw [ifSome_eq_some] at hpj hqj
    rw [← hpj.2, ← hqj.2]
    exact Or.inl (by simpa using hii)

lemma lambdaSelect_eq_nil {R : ℕ → ℕ → ℚ} {H W w : ℕ} {t : ℚ}
    (h : ∀ y x, ¬ t * gridMax R H W < R y x) :
    lambdaSelect R H W w t = [] := by
  rw [List.eq_nil_iff_forall_not_mem]
  rintro ⟨x, y⟩ hmem
  rw [mem_lambdaSelect] at hmem
  exact h y x hmem.2.2.2.2.1

/-- Membership characterization of `np.argwhere(R > threshold)`: every
in-bounds pixel above the threshold, as `(row, column)`. -/
lemma mem_harrisSelect {R : ℕ → ℕ → ℚ} {H W : ℕ} {t : ℚ} {r c : ℕ} :
    (r, c) ∈ harrisSelect R H W t ↔
      (r < H ∧ c < W ∧ t * gridMax R H W < R r c) := by
  unfold harrisSelect
  rw [List.mem_flatMap]
  constructor
  · rintro ⟨i, hi, hmem⟩
    rw [List.mem_range] at hi
    rw [List.mem_filterMap] at hmem
    obtain ⟨j, hj, hsome⟩ := hmem
    rw [List.mem_range] at hj
    rw [ifSome_eq_some] at hsome
    obtain ⟨hth, heq⟩ := hsome
    have hr : i = r := congrArg Prod.fst heq
    have hc : j = c := congrArg Prod.snd heq
    subst hr; subst hc
    exact ⟨hi, hj, hth⟩
  · rintro ⟨h1, h2, h3⟩
    refine ⟨r, by rw [List.mem_range]; omega, ?_⟩
    rw [List.mem_filterMap]
    exact ⟨c, by rw [List.mem_range]; omega, by rw [ifSome_eq_some]; exact ⟨h3, rfl⟩⟩

/-- `np.argwhere` emits coordinates in row-major order. -/
lemma pairwise_harrisSelect (R : ℕ → ℕ → ℚ) (H W : ℕ) (t : ℚ) :
    List.Pairwise (fun p q : ℕ × ℕ => p.1 < q.1 ∨ (p.1 = q.1 ∧ p.2 < q.2))
      (harrisSelect R H W t) := by
  unfold harrisSelect
  rw [List.pairwise_flatMap]
  constructor
  · intro i _
    rw [List.pairwise_filterMap]
    apply (List.pairwise_lt_range _).imp
    intro j j' hjj p hp q hq
    rw [mem_ifSome hp, mem_ifSome hq]
    exact Or.inr ⟨rfl, hjj⟩
  · apply (List.pairwise_lt_range _).imp
    intro i i' hii p hp q hq
    rw [List.mem_filterMap] at hp hq
    obtain ⟨j, _, hpj⟩ := hp
    obtain ⟨j', _, hqj⟩ := hq
    rw [ifSome_eq_some] at hpj hqj
    rw [← hpj.2, ← hqj.2]
    exact Or.inl hii

lemma harrisSelect_eq_nil {R : ℕ → ℕ → ℚ} {H W : ℕ} {t : ℚ}
    (h : ∀ y x, ¬ t * gridMax R H W < R y x) :
    harrisSelect R H W t = [] := by
  rw [List.eq_nil_iff_forall_not_mem]
  rintro ⟨r, c⟩ hmem
  rw [mem_harrisSelect] at hmem
  exact h r c hmem.2.2

/-! ### Zero-image lemmas -/

lemma toGray_zero {img : Img} (hz : ∀ y x c, img.px y x c = 0) :
    ∀ y x, (toGray img).px y x = 0 := by
  intro y x
  simp [toGray, hz]

lemma pxB_zero {g : Gray} (hg : ∀ y x, g.px y x = 0) : ∀ y x, pxB g y x = 0 := by
  intro y x
  simp [pxB, hg]

lemma sobelX_zero {g : Gray} (hg : ∀ y x, g.px y x = 0) : ∀ y x, sobelX g y x = 0 := by
  intro y x
  simp [sobelX, pxB_zero hg]

lemma sobelY_zero {g : Gray} (hg : ∀ y x, g.px y x = 0) : ∀ y x, sobelY g y x = 0 := by
  intro y x
  simp [sobelY, pxB_zero hg]

lemma lambdaResponseMap_zero {g : Gray} (hg : ∀ y x, g.px y x = 0) :
    ∀ y x, lambdaResponseMap g y x = 0 := by
  intro y x
  simp [lambdaResponseMap, lambdaMinusResp, eigPair, sobelX_zero hg, sobelY_zero hg]

lemma boxFilter_zero {H W w : ℕ} {f : ℕ → ℕ → ℚ} (hf : ∀ a b, f a b = 0) :
    ∀ y x, boxFilter H W f w y x = 0 := by
  intro y x
  simp [boxFilter, hf]

lemma harrisR_zero {g : Gray} (hg : ∀ y x, g.px y x = 0) (w : ℕ) (k : ℚ) :
    ∀ y x, harrisR g w k y x = 0 := by
  intro y x
  have hx2 : harrisSx2 g w y x = 0 :=
    boxFilter_zero (fun a b => by rw [sobelX_zero hg, zero_mul]) y x
  have hy2 : harrisSy2 g w y x = 0 :=
    boxFilter_zero (fun a b => by rw [sobelY_zero hg, mul_zero]) y x
  have hxy : harrisSxy g w y x = 0 :=
    boxFilter_zero (fun a b => by rw [sobelX_zero hg, zero_mul]) y x
  simp [harrisR, hx2, hy2, hxy]

lemma gridMax_zero {R : ℕ → ℕ → ℚ} {H W : ℕ} (h : ∀ y x, R y x = 0) :
    gridMax R H W = 0 := by
  unfold gridMax gridVals
  apply listMax_eq_zero
  intro v hv
  rw [List.mem_flatMap] at hv
  obtain ⟨y, _, hv⟩ := hv
  rw [List.mem_map] at hv
  obtain ⟨x, _, rfl⟩ := hv
  exact h y x

lemma lambdaSelect_of_zero_map {R : ℕ → ℕ → ℚ} {H W w : ℕ} {t : ℚ}
    (h : ∀ y x, R y x = 0) : lambdaSelect R H W w t = [] := by
  apply lambdaSelect_eq_nil
  intro y x
  rw [h y x, gridMax_zero h, mul_zero]
  exact lt_irrefl 0

lemma harrisSelect_of_zero_map {R : ℕ → ℕ → ℚ} {H W : ℕ} {t : ℚ}
    (h : ∀ y x, R y x = 0) : harrisSelect R H W t = [] := by
  apply harrisSelect_eq_nil
  intro y x
  rw [h y x, gridMax_zero h, mul_zero]
  exact lt_irrefl 0

/-! ### Extractor lemmas -/

lemma isSome_ifSome {α : Type} {c : Prop} [Decidable c] {a : α} :
    (if c then some a else none).isSome ↔ c := by
  split <;> simp [*]

lemma pySliceIdx_nonneg_cast (n : ℕ) (v : ℤ) (hv : 0 ≤ v) :
    (pySliceIdx n v : ℤ) = min v n := by
  unfold pySliceIdx
  split <;> omega

lemma length_flatMap_const {α β : Type} (l : List α) (f : α → List β) (k : ℕ)
    (hf : ∀ a ∈ l, (f a).length = k) : (l.flatMap f).length = l.length * k := by
  induction l with
  | nil => simp
  | cons a t ih =>
    simp only [List.flatMap_cons, List.length_append, List.length_cons]
    rw [hf a (by simp), ih (fun b hb => hf b (by simp [hb]))]
    ring

/-- A cropped patch that survives the `shape == (p, p)` test flattens to a
vector of length exactly `p * p`. -/
lemma cropCorner_length {g : Gray} {p : ℕ} {c : ℤ × ℤ} {d : List ℚ}
    (h : cropCorner g p c = some d) : d.length = p * p := by
  simp only [cropCorner] at h
  split at h
  · injection h with h
    subst h
    rw [length_flatMap_const _ _ p (fun a _ => by simp), List.length_range]
  · exact absurd h (by simp)

/-- Resolved width of the Python slice `[max(0, v - h) : v + h]` over an
axis of length `n`, for `v + h ≥ 0` and a positive even window `p = 2h`:
the slice is `p` wide exactly when the window fits inside the axis. -/
lemma pySlice_width_iff (n h p : ℕ) (v : ℤ) (hp : p = 2 * h) (h0 : 0 < p)
    (hv : 0 ≤ v + h) :
    (pySliceIdx n (v + h) - pySliceIdx n (max 0 (v - h)) = p) ↔
      ((h:ℤ) ≤ v ∧ v + h ≤ n) := by
  subst hp
  have h1 : (pySliceIdx n (v + h) : ℤ) = min (v + h) n := pySliceIdx_nonneg_cast _ _ hv
  rcases le_total (v - h) 0 with hc | hc
  · rw [max_eq_left hc]
    have h2 : (pySliceIdx n 0 : ℤ) = min 0 (n : ℤ) := pySliceIdx_nonneg_cast _ _ le_rfl
    omega
  · rw [max_eq_right hc]
    have h2 : (pySliceIdx n (v - h) : ℤ) = min (v - h) n := pySliceIdx_nonneg_cast _ _ hc
    omega

/-- For positive even `p` and corners with `x + p/2 ≥ 0` and `y + p/2 ≥ 0`
(where Python slicing agrees with interval clamping), a descriptor is
produced exactly when the full `p × p` window fits inside the image. -/
lemma cropCorner_isSome_iff {g : Gray} {p : ℕ} {x y : ℤ}
    (hp : p % 2 = 0) (hp0 : 0 < p)
    (hx : 0 ≤ x + (p/2 : ℕ)) (hy : 0 ≤ y + (p/2 : ℕ)) :
    (cropCorner g p (x, y)).isSome ↔
      (((p/2 : ℕ) : ℤ) ≤ x ∧ x + (p/2 : ℕ) ≤ (g.W : ℤ) ∧
       ((p/2 : ℕ) : ℤ) ≤ y ∧ y + (p/2 : ℕ) ≤ (g.H : ℤ)) := by
  simp only [cropCorner]
  rw [isSome_ifSome, pySlice_width_iff g.H (p/2) p y (by omega) hp0 hy,
    pySlice_width_iff g.W (p/2) p x (by omega) hp0 hx]
  tauto

/-- A corner whose `p × p` window fits entirely inside the image yields the
row-major flattening of the patch starting at `(y - p/2, x - p/2)`. -/
lemma cropCorner_eq_some {g : Gray} {p : ℕ} {x y : ℤ}
    (hp : p % 2 = 0)
    (h1 : ((p/2 : ℕ) : ℤ) ≤ x) (h2 : x + (p/2 : ℕ) ≤ (g.W : ℤ))
    (h3 : ((p/2 : ℕ) : ℤ) ≤ y) (h4 : y + (p/2 : ℕ) ≤ (g.H : ℤ)) :
    cropCorner g p (x, y) = some ((List.range p).flatMap (fun r =>
      (List.range p).map (fun cc =>
        g.px ((y - (p/2 : ℕ)).toNat + r) ((x - (p/2 : ℕ)).toNat + cc)))) := by
  have hx0 : pySliceIdx g.W (max 0 (x - (p/2:ℕ))) = (x - (p/2:ℕ)).toNat := by
    unfold pySliceIdx
    split <;> omega
  have hx1 : pySliceIdx g.W (x + (p/2:ℕ)) = (x + (p/2:ℕ)).toNat := by
    unfold pySliceIdx
    split <;> omega
  have hy0 : pySliceIdx g.H (max 0 (y - (p/2:ℕ))) = (y - (p/2:ℕ)).toNat := by
    unfold pySliceIdx
    split <;> omega
  have hy1 : pySliceIdx g.H (y + (p/2:ℕ)) = (y + (p/2:ℕ)).toNat := by
    unfold pySliceIdx
    split <;> omega
  simp only [cropCorner]
  rw [hx0, hx1, hy0, hy1, if_pos (by omega : (y + (p/2:ℕ)).toNat - (y - (p/2:ℕ)).toNat = p
    ∧ (x + (p/2:ℕ)).toNat - (x - (p/2:ℕ)).toNat = p)]

/-- A corner (with `x + p/2 ≥ 0`, `y + p/2 ≥ 0`) whose window does not fit
inside the image is silently dropped. -/
lemma cropCorner_eq_none {g : Gray} {p : ℕ} {x y : ℤ}
    (hp : p % 2 = 0) (hp0 : 0 < p)
    (hx : 0 ≤ x + (p/2 : ℕ)) (hy : 0 ≤ y + (p/2 : ℕ))
    (h : x < ((p/2 : ℕ) : ℤ) ∨ (g.W : ℤ) < x + (p/2 : ℕ) ∨
         y < ((p/2 : ℕ) : ℤ) ∨ (g.H : ℤ) < y + (p/2 : ℕ)) :
    cropCorner g p (x, y) = none := by
  cases hcc : cropCorner g p (x, y) with
  | none => rfl
  | some d =>
    have hb := (cropCorner_isSome_iff hp hp0 hx hy (g := g)).mp (by rw [hcc]; rfl)
    omega

/-! ### Matcher loop lemmas -/

lemma bestAux_fst_cases {σ : Type} (better : σ → σ → Bool) (l : List σ) (j0 : ℕ)
    (acc : Option ℕ × σ) :
    (bestAux better l j0 acc).1 = acc.1 ∨
    ∃ i, i < l.length ∧ (bestAux better l j0 acc).1 = some (j0 + i) := by
  induction l generalizing j0 acc with
  | nil => exact Or.inl rfl
  | cons s rest ih =>
    simp only [bestAux]
    by_cases hb : better s acc.2
    · rw [if_pos hb]
      rcases ih (j0+1) (some j0, s) with h | ⟨i, hi, h⟩
      · exact Or.inr ⟨0, by simp, by rw [h]; simp⟩
      · refine Or.inr ⟨i+1, by simp only [List.length_cons]; omega, ?_⟩
        rw [h]
        congr 1
        omega
    · rw [if_neg hb]
      rcases ih (j0+1) acc with h | ⟨i, hi, h⟩
      · exact Or.inl h
      · refine Or.inr ⟨i+1, by simp only [List.length_cons]; omega, ?_⟩
        rw [h]
        congr 1
        omega

lemma bestAux_none_all_false {σ : Type} (better : σ → σ → Bool) (l : List σ) (j0 : ℕ)
    (bs : σ) (h : (bestAux better l j0 (none, bs)).1 = none) :
    ∀ s ∈ l, better s bs = false := by
  induction l generalizing j0 with
  | nil => intro s hs; cases hs
  | cons s rest ih =>
    simp only [bestAux] at h
    by_cases hb : better s bs
    · rw [if_pos hb] at h
      rcases bestAux_fst_cases better rest (j0+1) (some j0, s) with h2 | ⟨i, _, h2⟩ <;>
        rw [h2] at h <;> cases h
    · rw [if_neg hb] at h
      intro u hu
      rcases List.mem_cons.mp hu with rfl | hu2
      · simpa using hb
      · exact ih (j0+1) h u hu2

lemma bestAux_all_false_none {σ : Type} (better : σ → σ → Bool) (l : List σ) (j0 : ℕ)
    (bs : σ) (h : ∀ s ∈ l, better s bs = false) :
    bestAux better l j0 (none, bs) = (none, bs) := by
  induction l generalizing j0 with
  | nil => rfl
  | cons s rest ih =>
    simp only [bestAux]
    rw [h s (by simp), if_neg (by simp)]
    exact ih (j0+1) (fun u hu => h u (by simp [hu]))

lemma bestAux_of_all_le {σ β : Type} [LinearOrder β] (better : σ → σ → Bool)
    (P : σ → Prop) (f : σ → β)
    (hb : ∀ s t, P s → P t → (better s t = true ↔ f t < f s))
    (l : List σ) (j0 : ℕ) (acc : Option ℕ × σ)
    (hP : ∀ s ∈ l, P s) (hPb : P acc.2)
    (hno : ∀ s ∈ l, ¬ f acc.2 < f s) :
    bestAux better l j0 acc = acc := by
  induction l generalizing j0 with
  | nil => rfl
  | cons s rest ih =>
    simp only [bestAux]
    have hs : better s acc.2 = false := by
      cases hbool : better s acc.2 with
      | false => rfl
      | true =>
        exact absurd ((hb s acc.2 (hP s (by simp)) hPb).mp hbool) (hno s (by simp))
    rw [hs, if_neg (by simp)]
    exact ih (j0+1) (fun u hu => hP u (by simp [hu])) (fun u hu => hno u (by simp [hu]))

/-- The inner matching loop, when some candidate strictly beats the initial
best score (under the valuation `f` that `better` decides), returns the
first index attaining the maximum valuation, together with that score. -/
lemma bestAux_argmax {σ β : Type} [LinearOrder β] (better : σ → σ → Bool)
    (P : σ → Prop) (f : σ → β)
    (hb : ∀ s t, P s → P t → (better s t = true ↔ f t < f s))
    (l : List σ) (j0 : ℕ) (bi : Option ℕ) (bs : σ)
    (hP : ∀ s ∈ l, P s) (hPb : P bs)
    (hyes : ∃ s ∈ l, f bs < f s) :
    ∃ i, ∃ hi : i < l.length,
      bestAux better l j0 (bi, bs) = (some (j0 + i), l.get ⟨i, hi⟩) ∧
      f bs < f (l.get ⟨i, hi⟩) ∧
      (∀ m, ∀ hm : m < l.length, f (l.get ⟨m, hm⟩) ≤ f (l.get ⟨i, hi⟩)) ∧
      (∀ m, ∀ hm : m < l.length, m < i → f (l.get ⟨m, hm⟩) < f (l.get ⟨i, hi⟩)) := by
  induction l generalizing j0 bi bs with
  | nil => obtain ⟨s, hs, _⟩ := hyes; cases hs
  | cons s rest ih =>
    simp only [bestAux]
    by_cases hbs : better s bs = true
    · rw [if_pos hbs]
      have hfs : f bs < f s := (hb s bs (hP s (by simp)) hPb).mp hbs
      by_cases hrest : ∃ u ∈ rest, f s < f u
      · obtain ⟨i, hi, heq, hlt, hmax, hfirst⟩ :=
          ih (j0+1) (some j0) s (fun u hu => hP u (by simp [hu])) (hP s (by simp)) hrest
        refine ⟨i+1, by simp only [List.length_cons]; omega, ?_, lt_trans hfs hlt, ?_, ?_⟩
        · have hadd : j0 + (i+1) = j0 + 1 + i := by omega
          rw [heq, hadd]
          exact rfl
        · intro m hm
          cases m with
          | zero => exact le_of_lt hlt
          | succ m => exact hmax m (by simp only [List.length_cons] at hm; omega)
        · intro m hm hmi
          cases m with
          | zero => exact hlt
          | succ m =>
            exact hfirst m (by simp only [List.length_cons] at hm; omega) (by omega)
      · push_neg at hrest
        rw [bestAux_of_all_le better P f hb rest (j0+1) (some j0, s)
          (fun u hu => hP u (by simp [hu])) (hP s (by simp))
          (fun u hu => not_lt.mpr (hrest u hu))]
        refine ⟨0, by simp, rfl, hfs, ?_, ?_⟩
        · intro m hm
          cases m with
          | zero => exact le_refl _
          | succ m =>
            exact hrest (rest.get ⟨m, by simp only [List.length_cons] at hm; omega⟩)
              (List.get_mem _ _ _)
        · intro m hm h0
          exact absurd h0 (Nat.not_lt_zero m)
    · rw [if_neg hbs]
      have hfs : ¬ f bs < f s := fun hlt => hbs ((hb s bs (hP s (by simp)) hPb).mpr hlt)
      obtain ⟨u, hu, hul⟩ := hyes
      have hu2 : u ∈ rest := by
        rcases List.mem_cons.mp hu with rfl | h2
        · exact absurd hul hfs
        · exact h2
      obtain ⟨i, hi, heq, hlt, hmax, hfirst⟩ :=
        ih (j0+1) bi bs (fun v hv => hP v (by simp [hv])) hPb ⟨u, hu2, hul⟩
      refine ⟨i+1, by simp only [List.length_cons]; omega, ?_, hlt, ?_, ?_⟩
      · have hadd : j0 + (i+1) = j0 + 1 + i := by omega
        rw [heq, hadd]
        exact rfl
      · intro m hm
        cases m with
        | zero => exact le_trans (not_lt.mp hfs) (le_of_lt hlt)
        | succ m => exact hmax m (by simp only [List.length_cons] at hm; omega)
      · intro m hm hmi
        cases m with
        | zero => exact lt_of_le_of_lt (not_lt.mp hfs) hlt
        | succ m =>
          exact hfirst m (by simp only [List.length_cons] at hm; omega) (by omega)

/-! ### Score lemmas -/

lemma mem_zip_same {α : Type} {q : α × α} {l : List α} (h : q ∈ l.zip l) :
    q.1 = q.2 := by
  induction l with
  | nil => cases h
  | cons x t ih =>
    rw [List.zip_cons_cons] at h
    rcases List.mem_cons.mp h with rfl | h2
    · rfl
    · exact ih h2

lemma ssq_nonneg (a : List ℚ) : 0 ≤ ssq a := by
  unfold ssq dotProd
  apply List.sum_nonneg
  intro v hv
  rw [List.mem_map] at hv
  obtain ⟨q, hq, rfl⟩ := hv
  rw [mem_zip_same hq]
  exact mul_self_nonneg _

lemma ssdScore_nonneg (a b : List ℚ) : 0 ≤ ssdScore a b := by
  unfold ssdScore
  apply List.sum_nonneg
  intro v hv
  rw [List.mem_map] at hv
  obtain ⟨q, _, rfl⟩ := hv
  exact sq_nonneg _

lemma ssdScore_self (a : List ℚ) : ssdScore a a = 0 := by
  unfold ssdScore
  induction a with
  | nil => rfl
  | cons x t ih =>
    rw [List.zip_cons_cons, List.map_cons, List.sum_cons, ih]
    ring

/-- Equal-length descriptors at SSD distance zero are equal. -/
lemma eq_of_ssdScore_eq_zero {a b : List ℚ} (hlen : a.length = b.length)
    (h : ssdScore a b = 0) : a = b := by
  induction a generalizing b with
  | nil =>
    cases b with
    | nil => rfl
    | cons y u => cases hlen
  | cons x t ih =>
    cases b with
    | nil => cases hlen
    | cons y u =>
      rw [ssdScore, List.zip_cons_cons, List.map_cons, List.sum_cons] at h
      have htail : 0 ≤ ssdScore t u := ssdScore_nonneg t u
      have hhead : 0 ≤ (x - y)^2 := sq_nonneg _
      have h1 : (x - y)^2 = 0 := by
        have : ssdScore t u = (List.map (fun q => (q.1 - q.2)^2) (t.zip u)).sum := rfl
        linarith [this ▸ htail]
      have h2 : ssdScore t u = 0 := by
        have : ssdScore t u = (List.map (fun q => (q.1 - q.2)^2) (t.zip u)).sum := rfl
        linarith [this ▸ htail]
      have hx : x = y := by
        have := pow_eq_zero_iff (n := 2) (by norm_num) |>.mp h1
        linarith [sub_eq_zero.mp this]
      rw [hx, ih (by simpa using hlen) h2]

/-- The SSD branch of the inner loop on a non-empty candidate set returns
the first index minimizing the SSD score, together with that score. -/
lemma bestSSD_spec (a : List ℚ) (B : List (List ℚ)) (hB : B ≠ []) :
    ∃ j, ∃ hj : j < B.length,
      bestSSD a B = (some j, ((ssdScore a (B.get ⟨j, hj⟩) : ℚ) : WithTop ℚ)) ∧
      (∀ m, ∀ hm : m < B.length,
        ssdScore a (B.get ⟨j, hj⟩) ≤ ssdScore a (B.get ⟨m, hm⟩)) ∧
      (∀ m, ∀ hm : m < B.length, m < j →
        ssdScore a (B.get ⟨j, hj⟩) < ssdScore a (B.get ⟨m, hm⟩)) := by
  have hmain := bestAux_argmax (β := (WithTop ℚ)ᵒᵈ) ssdBetter (fun _ => True)
    (fun s => OrderDual.toDual s)
    (fun s t _ _ => by
      rw [ssdBetter, decide_eq_true_iff]
      exact (OrderDual.toDual_lt_toDual).symm)
    (B.map (fun b => ((ssdScore a b : ℚ) : WithTop ℚ))) 0 none ⊤
    (fun s _ => trivial) trivial
    ?_
  · obtain ⟨i, hi, heq, _, hmax, hfirst⟩ := hmain
    have hiB : i < B.length := by simpa using hi
    refine ⟨i, hiB, ?_, ?_, ?_⟩
    · rw [bestSSD, heq, List.get_map]
      simp
    · intro m hm
      have := hmax m (by simpa using hm)
      rw [List.get_map, List.get_map] at this
      exact WithTop.coe_le_coe.mp (OrderDual.toDual_le_toDual.mp this)
    · intro m hm hmi
      have := hfirst m (by simpa using hm) hmi
      rw [List.get_map, List.get_map] at this
      exact WithTop.coe_lt_coe.mp (OrderDual.toDual_lt_toDual.mp this)
  · cases B with
    | nil => exact absurd rfl hB
    | cons b rest =>
      refine ⟨((ssdScore a b : ℚ) : WithTop ℚ), by simp, ?_⟩
      rw [OrderDual.toDual_lt_toDual]
      exact WithTop.coe_lt_top _

/-- The comparison `nccGtB` decides, in exact arithmetic, the strict
comparison of the real NCC scores `s.1 / sqrt s.2` and `t.1 / sqrt t.2`
(for positive squared denominators). -/
lemma nccGtB_iff (s t : ℚ × ℚ) (hs : 0 < s.2) (ht : 0 < t.2) :
    nccGtB s t = true ↔
      ((t.1 : ℝ) / Real.sqrt (t.2 : ℝ) < (s.1 : ℝ) / Real.sqrt (s.2 : ℝ)) := by
  obtain ⟨s1, s2⟩ := s
  obtain ⟨t1, t2⟩ := t
  dsimp only at hs ht ⊢
  have hs2 : (0:ℝ) < (s2:ℝ) := by exact_mod_cast hs
  have ht2 : (0:ℝ) < (t2:ℝ) := by exact_mod_cast ht
  have hbs : 0 < Real.sqrt (s2:ℝ) := Real.sqrt_pos.mpr hs2
  have hbt : 0 < Real.sqrt (t2:ℝ) := Real.sqrt_pos.mpr ht2
  have hbs2 : Real.sqrt (s2:ℝ) ^ 2 = (s2:ℝ) := Real.sq_sqrt hs2.le
  have hbt2 : Real.sqrt (t2:ℝ) ^ 2 = (t2:ℝ) := Real.sq_sqrt ht2.le
  rw [div_lt_div_iff hbt hbs]
  unfold nccGtB
  dsimp only
  rw [if_neg (not_le.mpr hs), if_neg (not_le.mpr ht)]
  by_cases h1 : (0:ℚ) ≤ s1 <;> by_cases h2 : (0:ℚ) ≤ t1
  · rw [if_pos h1, if_pos h2, decide_eq_true_iff]
    have h1r : (0:ℝ) ≤ (s1:ℝ) := by exact_mod_cast h1
    have h2r : (0:ℝ) ≤ (t1:ℝ) := by exact_mod_cast h2
    constructor
    · intro hq
      have hq2 : ((t1:ℝ) * Real.sqrt s2) ^ 2 < ((s1:ℝ) * Real.sqrt t2) ^ 2 := by
        rw [mul_pow, mul_pow, hbs2, hbt2]
        exact_mod_cast hq
      exact lt_of_pow_lt_pow_left 2 (by positivity) hq2
    · intro hr
      have hq2 : ((t1:ℝ) * Real.sqrt s2) ^ 2 < ((s1:ℝ) * Real.sqrt t2) ^ 2 :=
        pow_lt_pow_left hr (by positivity) (by norm_num)
      rw [mul_pow, mul_pow, hbs2, hbt2] at hq2
      exact_mod_cast hq2
  · rw [if_pos h1, if_neg h2]
    constructor
    · intro _
      have h2r : (t1:ℝ) < 0 := by exact_mod_cast not_le.mp h2
      have h1r : (0:ℝ) ≤ (s1:ℝ) := by exact_mod_cast h1
      calc (t1:ℝ) * Real.sqrt s2 < 0 := mul_neg_of_neg_of_pos h2r hbs
        _ ≤ (s1:ℝ) * Real.sqrt t2 := mul_nonneg h1r hbt.le
    · intro _
      rfl
  · rw [if_neg h1, if_pos h2]
    constructor
    · intro hfalse
      cases hfalse
    · intro hr
      exfalso
      have h1r : (s1:ℝ) < 0 := by exact_mod_cast not_le.mp h1
      have h2r : (0:ℝ) ≤ (t1:ℝ) := by exact_mod_cast h2
      have hneg : (s1:ℝ) * Real.sqrt t2 < 0 := mul_neg_of_neg_of_pos h1r hbt
      have hpos : (0:ℝ) ≤ (t1:ℝ) * Real.sqrt s2 := mul_nonneg h2r hbs.le
      linarith
  · rw [if_neg h1, if_neg h2, decide_eq_true_iff]
    have h1r : (s1:ℝ) < 0 := by exact_mod_cast not_le.mp h1
    have h2r : (t1:ℝ) < 0 := by exact_mod_cast not_le.mp h2
    constructor
    · intro hq
      have hq2 : ((-(s1:ℝ)) * Real.sqrt t2) ^ 2 < ((-(t1:ℝ)) * Real.sqrt s2) ^ 2 := by
        rw [mul_pow, mul_pow, neg_sq, neg_sq, hbs2, hbt2]
        exact_mod_cast hq
      have := lt_of_pow_lt_pow_left 2 (mul_nonneg (by linarith) hbs.le) hq2
      nlinarith
    · intro hr
      have hq2 : ((-(s1:ℝ)) * Real.sqrt t2) ^ 2 < ((-(t1:ℝ)) * Real.sqrt s2) ^ 2 :=
        pow_lt_pow_left (by nlinarith) (mul_nonneg (by linarith) hbt.le) (by norm_num)
      rw [mul_pow, mul_pow, neg_sq, neg_sq, hbs2, hbt2] at hq2
      exact_mod_cast hq2

/-- The NCC branch of the inner loop: either no candidate score strictly
exceeds the sentinel `-1` and no index is returned (every real NCC score is
at most `-1`), or the first index maximizing the real NCC score
`dot / (‖a‖ ‖b‖)` is returned, its score strictly above `-1`. -/
lemma bestNCC_spec (a : List ℚ) (B : List (List ℚ))
    (ha : 0 < ssq a) (hb : ∀ b ∈ B, 0 < ssq b) :
    ((bestNCC a B).1 = none ∧ ∀ m, ∀ hm : m < B.length,
        (dotProd a (B.get ⟨m, hm⟩) : ℝ)
          / (Real.sqrt (ssq a) * Real.sqrt (ssq (B.get ⟨m, hm⟩))) ≤ -1) ∨
    (∃ j, ∃ hj : j < B.length, (bestNCC a B).1 = some j ∧
      -1 < (dotProd a (B.get ⟨j, hj⟩) : ℝ)
          / (Real.sqrt (ssq a) * Real.sqrt (ssq (B.get ⟨j, hj⟩))) ∧
      (∀ m, ∀ hm : m < B.length,
        (dotProd a (B.get ⟨m, hm⟩) : ℝ)
            / (Real.sqrt (ssq a) * Real.sqrt (ssq (B.get ⟨m, hm⟩)))
          ≤ (dotProd a (B.get ⟨j, hj⟩) : ℝ)
            / (Real.sqrt (ssq a) * Real.sqrt (ssq (B.get ⟨j, hj⟩)))) ∧
      (∀ m, ∀ hm : m < B.length, m < j →
        (dotProd a (B.get ⟨m, hm⟩) : ℝ)
            / (Real.sqrt (ssq a) * Real.sqrt (ssq (B.get ⟨m, hm⟩)))
          < (dotProd a (B.get ⟨j, hj⟩) : ℝ)
            / (Real.sqrt (ssq a) * Real.sqrt (ssq (B.get ⟨j, hj⟩))))) := by
  have hval : ∀ (b : List ℚ),
      (((nccScore a b).1 : ℚ) : ℝ) / Real.sqrt ((nccScore a b).2 : ℝ)
        = (dotProd a b : ℝ) / (Real.sqrt (ssq a) * Real.sqrt (ssq b)) := by
    intro b
    have hcast : (((ssq a * ssq b : ℚ)) : ℝ) = ((ssq a : ℚ) : ℝ) * ((ssq b : ℚ) : ℝ) := by
      push_cast
      ring
    rw [nccScore]
    dsimp only
    rw [hcast, Real.sqrt_mul (by exact_mod_cast ssq_nonneg a)]
  have hinitval : ((((-1 : ℚ)) : ℝ) / Real.sqrt (((1 : ℚ)) : ℝ)) = -1 := by
    norm_num
  have hP : ∀ s ∈ B.map (nccScore a), (0:ℚ) < s.2 := by
    intro s hs
    rw [List.mem_map] at hs
    obtain ⟨b, hbB, rfl⟩ := hs
    rw [nccScore]
    exact mul_pos ha (hb b hbB)
  by_cases hyes : ∃ s ∈ B.map (nccScore a),
      ((((-1 : ℚ), (1 : ℚ)).1 : ℚ) : ℝ) / Real.sqrt (((-1 : ℚ), (1 : ℚ)).2 : ℝ)
        < ((s.1 : ℚ) : ℝ) / Real.sqrt (s.2 : ℝ)
  · right
    obtain ⟨i, hi, heq, hgt, hmax, hfirst⟩ := bestAux_argmax (β := ℝ) nccGtB
      (fun p => (0:ℚ) < p.2) (fun p => ((p.1 : ℚ) : ℝ) / Real.sqrt (p.2 : ℝ))
      (fun s t hs ht => nccGtB_iff s t hs ht)
      (B.map (nccScore a)) 0 none ((-1 : ℚ), (1 : ℚ))
      hP one_pos hyes
    have hiB : i < B.length := by simpa using hi
    refine ⟨i, hiB, ?_, ?_, ?_, ?_⟩
    · rw [bestNCC, heq]
      simp
    · simpa only [List.get_map, hval, hinitval] using hgt
    · intro m hm
      simpa only [List.get_map, hval] using hmax m (by simpa using hm)
    · intro m hm hmi
      simpa only [List.get_map, hval] using hfirst m (by simpa using hm) hmi
  · left
    push_neg at hyes
    have hkeep := bestAux_of_all_le (β := ℝ) nccGtB
      (fun p => (0:ℚ) < p.2) (fun p => ((p.1 : ℚ) : ℝ) / Real.sqrt (p.2 : ℝ))
      (fun s t hs ht => nccGtB_iff s t hs ht)
      (B.map (nccScore a)) 0 (none, ((-1 : ℚ), (1 : ℚ)))
      hP one_pos
      (fun s hs => not_lt.mpr (hyes s hs))
    refine ⟨by rw [bestNCC, hkeep], ?_⟩
    intro m hm
    have hsm : nccScore a (B.get ⟨m, hm⟩) ∈ B.map (nccScore a) := by
      rw [List.mem_map]
      exact ⟨B.get ⟨m, hm⟩, List.get_mem _ _ _, rfl⟩
    simpa only [hval, hinitval] using hyes (nccScore a (B.get ⟨m, hm⟩)) hsm

/-! ### Outer matching loop lemmas -/

lemma matchAux_length (B : List (List ℚ)) (m : MatchMethod) (l : List (List ℚ)) (i : ℕ) :
    (matchAux B m l i).length = l.length := by
  induction l generalizing i with
  | nil => rfl
  | cons a rest ih => simp [matchAux, ih]

lemma matchAux_getElem (B : List (List ℚ)) (m : MatchMethod) (l : List (List ℚ))
    (i0 i : ℕ) (hi : i < l.length) :
    (matchAux B m l i0)[i]? = some (i0 + i,
      match m with
      | MatchMethod.SSD => (bestSSD (l.get ⟨i, hi⟩) B).1
      | MatchMethod.NCC => (bestNCC (l.get ⟨i, hi⟩) B).1) := by
  cases m
  all_goals
    induction l generalizing i0 i with
    | nil => exact absurd hi (by simp)
    | cons a rest ih =>
      cases i with
      | zero => simp [matchAux]
      | succ i =>
        simp only [matchAux, List.getElem?_cons_succ]
        rw [ih (i0+1) i (by simp only [List.length_cons] at hi; omega)]
        have hadd : i0 + 1 + i = i0 + (i + 1) := by omega
        rw [hadd]
        exact rfl

/-! ### Claim theorems -/

/-- Claim C1: for every response map of positive dimensions, window size `w`
and threshold fraction `t`, the lambda-minus selection stage returns exactly
the interior pixels `(x, y)` with `w ≤ x < W - w`, `w ≤ y < H - w` whose
response strictly exceeds `t` times the global maximum and equals the
maximum of the `(2w+1) × (2w+1)` window centered there (so window-max ties
are kept, and nothing within `w` of a border is ever emitted), listed in
row-major scan order with coordinates as `(x, y)` pairs. -/
theorem c1_lambda_select_exact (R : ℕ → ℕ → ℚ) (H W w : ℕ) (t : ℚ)
    (_hH : 1 ≤ H) (_hW : 1 ≤ W) :
    (∀ x y : ℕ, (x, y) ∈ lambdaSelect R H W w t ↔
      (w ≤ x ∧ x + w < W ∧ w ≤ y ∧ y + w < H ∧
        t * gridMax R H W < R y x ∧ R y x = nmsWindowMax R w y x)) ∧
    List.Pairwise (fun p q : ℕ × ℕ => p.2 < q.2 ∨ (p.2 = q.2 ∧ p.1 < q.1))
      (lambdaSelect R H W w t) := by
  exact ⟨fun _ _ => mem_lambdaSelect, pairwise_lambdaSelect R H W w t⟩

/-- Witness for C1 on a concrete 4×4 response map with a single peak. -/
theorem c1_lambda_select_exact_witness :
    ((1 : ℕ) ≤ 4 ∧ (1 : ℕ) ≤ 4) ∧
    ((∀ x y : ℕ,
        (x, y) ∈ lambdaSelect (fun y x => if y = 1 ∧ x = 2 then (5:ℚ) else 0) 4 4 1 (1/2) ↔
        (1 ≤ x ∧ x + 1 < 4 ∧ 1 ≤ y ∧ y + 1 < 4 ∧
          (1/2) * gridMax (fun y x => if y = 1 ∧ x = 2 then (5:ℚ) else 0) 4 4
            < (fun y x => if y = 1 ∧ x = 2 then (5:ℚ) else 0) y x ∧
          (fun y x => if y = 1 ∧ x = 2 then (5:ℚ) else 0) y x
            = nmsWindowMax (fun y x => if y = 1 ∧ x = 2 then (5:ℚ) else 0) 1 y x)) ∧
      List.Pairwise (fun p q : ℕ × ℕ => p.2 < q.2 ∨ (p.2 = q.2 ∧ p.1 < q.1))
        (lambdaSelect (fun y x => if y = 1 ∧ x = 2 then (5:ℚ) else 0) 4 4 1 (1/2))) :=
  ⟨⟨by norm_num, by norm_num⟩,
    c1_lambda_select_exact (fun y x => if y = 1 ∧ x = 2 then (5:ℚ) else 0) 4 4 1 (1/2)
      (by norm_num) (by norm_num)⟩

/-- Claim C2: the lambda-minus per-pixel response is the smaller of the two
eigenvalues of the per-pixel structure tensor `[[Ix², Ix·Iy],[Ix·Iy, Iy²]]`
built from the gradients at that pixel alone (no spatial aggregation):
both components of `eigPair` are roots of the characteristic polynomial,
every root is one of them, the response is their minimum and is below every
root, and in exact arithmetic it equals `(trace - sqrt(trace² - 4 det)) / 2`
(the square root exists in `ℚ` because `det = 0` makes the discriminant the
perfect square `trace²`). -/
theorem c2_lambda_minus_eigen :
    (∀ (g : Gray) (y x : ℕ),
      lambdaResponseMap g y x = lambdaMinusResp (sobelX g y x) (sobelY g y x)) ∧
    ∀ ix iy : ℚ,
      structCharPoly ix iy (eigPair ix iy).1 = 0 ∧
      structCharPoly ix iy (eigPair ix iy).2 = 0 ∧
      lambdaMinusResp ix iy = min (eigPair ix iy).1 (eigPair ix iy).2 ∧
      (∀ μ : ℚ, structCharPoly ix iy μ = 0 →
        μ = (eigPair ix iy).1 ∨ μ = (eigPair ix iy).2) ∧
      (∀ μ : ℚ, structCharPoly ix iy μ = 0 → lambdaMinusResp ix iy ≤ μ) ∧
      ∃ s : ℚ, 0 ≤ s ∧
        s^2 = (ix*ix + iy*iy)^2 - 4*((ix*ix) * (iy*iy) - (ix*iy) * (ix*iy)) ∧
        lambdaMinusResp ix iy = ((ix*ix + iy*iy) - s) / 2 := by
  constructor
  · intro g y x; rfl
  · intro ix iy
    have hroots : ∀ μ : ℚ, structCharPoly ix iy μ = 0 →
        μ = (eigPair ix iy).1 ∨ μ = (eigPair ix iy).2 := by
      intro μ h
      unfold structCharPoly at h
      have h2 : μ * (μ - (ix*ix + iy*iy)) = 0 := by linear_combination h
      rcases mul_eq_zero.mp h2 with h3 | h3
      · exact Or.inr h3
      · exact Or.inl (by unfold eigPair; dsimp only; linarith [sub_eq_zero.mp h3])
    have htr : (0:ℚ) ≤ ix*ix + iy*iy :=
      add_nonneg (mul_self_nonneg ix) (mul_self_nonneg iy)
    refine ⟨by unfold structCharPoly eigPair; ring,
      by unfold structCharPoly eigPair; ring, rfl, hroots, ?_, ?_⟩
    · intro μ hμ
      rcases hroots μ hμ with h | h <;> rw [h]
      · exact min_le_left _ _
      · exact min_le_right _ _
    · refine ⟨ix*ix + iy*iy, htr, by ring, ?_⟩
      show min (eigPair ix iy).1 (eigPair ix iy).2 = _
      unfold eigPair
      dsimp only
      rw [min_eq_right htr]
      ring

/-- Claim C3: for every accepted image of positive dimensions, the Harris
variant succeeds and returns exactly the pixels whose response `R` strictly
exceeds `t` times the global maximum of `R` — no non-maximum suppression,
no border exclusion, no locality constraint — emitted as `(row, column)`
pairs in row-major order, where `R = (Sx2·Sy2 - Sxy²) - k·(Sx2+Sy2)²` and
`Sx2`, `Sy2`, `Sxy` are box-filtered (uniform local average over a `w × w`
neighborhood) versions of `Ix²`, `Iy²`, `Ix·Iy`. -/
theorem c3_harris_detection_exact (img : Img) (w : ℕ) (k t : ℚ)
    (hC : img.C = 3 ∨ img.C = 4) (_hH : 1 ≤ img.H) (_hW : 1 ≤ img.W) :
    harris_corner_detection img w k t =
      .ok (harrisSelect (harrisR (toGray img) w k) img.H img.W t) ∧
    (∀ r c : ℕ, (r, c) ∈ harrisSelect (harrisR (toGray img) w k) img.H img.W t ↔
      (r < img.H ∧ c < img.W ∧
        t * gridMax (harrisR (toGray img) w k) img.H img.W
          < harrisR (toGray img) w k r c)) ∧
    List.Pairwise (fun p q : ℕ × ℕ => p.1 < q.1 ∨ (p.1 = q.1 ∧ p.2 < q.2))
      (harrisSelect (harrisR (toGray img) w k) img.H img.W t) ∧
    (∀ y x, harrisR (toGray img) w k y x =
      (harrisSx2 (toGray img) w y x * harrisSy2 (toGray img) w y x
        - harrisSxy (toGray img) w y x * harrisSxy (toGray img) w y x)
      - k * (harrisSx2 (toGray img) w y x + harrisSy2 (toGray img) w y x)^2) ∧
    (∀ y x, harrisSx2 (toGray img) w y x
      = boxFilter img.H img.W
          (fun y x => sobelX (toGray img) y x * sobelX (toGray img) y x) w y x) ∧
    (∀ y x, harrisSy2 (toGray img) w y x
      = boxFilter img.H img.W
          (fun y x => sobelY (toGray img) y x * sobelY (toGray img) y x) w y x) ∧
    (∀ y x, harrisSxy (toGray img) w y x
      = boxFilter img.H img.W
          (fun y x => sobelX (toGray img) y x * sobelY (toGray img) y x) w y x) := by
  refine ⟨?_, fun r c => mem_harrisSelect, pairwise_harrisSelect _ _ _ _,
    fun y x => rfl, fun y x => rfl, fun y x => rfl, fun y x => rfl⟩
  unfold harris_corner_detection cvtColorBGR2GRAY
  rw [if_pos hC]
  rfl

/-- Witness for C3 on a concrete 1×1 3-channel image. -/
theorem c3_harris_detection_exact_witness :
    (imgZero3.C = 3 ∨ imgZero3.C = 4) ∧
    (harris_corner_detection imgZero3 1 (1/25) (1/100) =
      .ok (harrisSelect (harrisR (toGray imgZero3) 1 (1/25)) imgZero3.H imgZero3.W (1/100)) ∧
    (∀ r c : ℕ,
      (r, c) ∈ harrisSelect (harrisR (toGray imgZero3) 1 (1/25)) imgZero3.H imgZero3.W (1/100) ↔
      (r < imgZero3.H ∧ c < imgZero3.W ∧
        (1/100) * gridMax (harrisR (toGray imgZero3) 1 (1/25)) imgZero3.H imgZero3.W
          < harrisR (toGray imgZero3) 1 (1/25) r c)) ∧
    List.Pairwise (fun p q : ℕ × ℕ => p.1 < q.1 ∨ (p.1 = q.1 ∧ p.2 < q.2))
      (harrisSelect (harrisR (toGray imgZero3) 1 (1/25)) imgZero3.H imgZero3.W (1/100)) ∧
    (∀ y x, harrisR (toGray imgZero3) 1 (1/25) y x =
      (harrisSx2 (toGray imgZero3) 1 y x * harrisSy2 (toGray imgZero3) 1 y x
        - harrisSxy (toGray imgZero3) 1 y x * harrisSxy (toGray imgZero3) 1 y x)
      - (1/25) * (harrisSx2 (toGray imgZero3) 1 y x + harrisSy2 (toGray imgZero3) 1 y x)^2) ∧
    (∀ y x, harrisSx2 (toGray imgZero3) 1 y x
      = boxFilter imgZero3.H imgZero3.W
          (fun y x => sobelX (toGray imgZero3) y x * sobelX (toGray imgZero3) y x) 1 y x) ∧
    (∀ y x, harrisSy2 (toGray imgZero3) 1 y x
      = boxFilter imgZero3.H imgZero3.W
          (fun y x => sobelY (toGray imgZero3) y x * sobelY (toGray imgZero3) y x) 1 y x) ∧
    (∀ y x, harrisSxy (toGray imgZero3) 1 y x
      = boxFilter imgZero3.H imgZero3.W
          (fun y x => sobelX (toGray imgZero3) y x * sobelY (toGray imgZero3) y x) 1 y x)) :=
  ⟨Or.inl rfl,
    c3_harris_detection_exact imgZero3 1 (1/25) (1/100) (Or.inl rfl)
      (by norm_num [imgZero3]) (by norm_num [imgZero3])⟩

/-- Claim C7 counterexample: both detectors call
`cvtColor(img, COLOR_BGR2GRAY)` before the gradient stage, so a
single-channel input makes them fail hard (the conversion demands 3 or 4
channels), while a 3-channel — not single-channel — input is silently
coerced to grayscale and the detectors succeed.  This is the opposite of
the claim, which says non-single-channel input propagates a hard failure
rather than being coerced and that single-channel input is accepted. -/
theorem c7_channel_counterexample :
    lambda_minus_corner_detection imgOne1 1 (1/100) = .error .shapeMismatch ∧
    harris_corner_detection imgOne1 1 (1/25) (1/100) = .error .shapeMismatch ∧
    lambda_minus_corner_detection imgTwo3 1 (1/100) = .ok [] ∧
    harris_corner_detection imgTwo3 1 (1/25) (1/100) = .ok [] := by
  refine ⟨rfl, rfl, ?_, ?_⟩
  · unfold lambda_minus_corner_detection cvtColorBGR2GRAY
    rw [if_pos (Or.inl (show imgTwo3.C = 3 from rfl))]
    exact congrArg Except.ok
      (lambdaSelect_of_zero_map (lambdaResponseMap_zero (toGray_zero (fun _ _ _ => rfl))))
  · unfold harris_corner_detection cvtColorBGR2GRAY
    rw [if_pos (Or.inl (show imgTwo3.C = 3 from rfl))]
    exact congrArg Except.ok
      (harrisSelect_of_zero_map (harrisR_zero (toGray_zero (fun _ _ _ => rfl)) 1 (1/25)))

/-- Claim C7 (amended): both detectors convert their input with
`cvtColor(BGR2GRAY)` before the gradient stage; a 3- or 4-channel input is
silently coerced to grayscale and both detectors succeed, while any other
channel count (in particular single-channel input) makes the conversion —
and hence both detectors — propagate a hard shape-mismatch failure.  The
image entering the gradient stage itself is therefore always the
single-channel conversion output. -/
theorem c7_channel_behavior (img : Img) (w : ℕ) (k t : ℚ)
    (_hH : 1 ≤ img.H) (_hW : 1 ≤ img.W) :
    ((img.C = 3 ∨ img.C = 4) →
      cvtColorBGR2GRAY img = .ok (toGray img) ∧
      lambda_minus_corner_detection img w t
        = .ok (lambdaSelect (lambdaResponseMap (toGray img)) img.H img.W w t) ∧
      harris_corner_detection img w k t
        = .ok (harrisSelect (harrisR (toGray img) w k) img.H img.W t)) ∧
    (img.C ≠ 3 → img.C ≠ 4 →
      cvtColorBGR2GRAY img = .error .shapeMismatch ∧
      lambda_minus_corner_detection img w t = .error .shapeMismatch ∧
      harris_corner_detection img w k t = .error .shapeMismatch) := by
  constructor
  · intro hC
    refine ⟨?_, ?_, ?_⟩
    · unfold cvtColorBGR2GRAY; rw [if_pos hC]
    · unfold lambda_minus_corner_detection cvtColorBGR2GRAY; rw [if_pos hC]; rfl
    · unfold harris_corner_detection cvtColorBGR2GRAY; rw [if_pos hC]; rfl
  · intro h3 h4
    have hC : ¬ (img.C = 3 ∨ img.C = 4) := by tauto
    refine ⟨?_, ?_, ?_⟩
    · unfold cvtColorBGR2GRAY; rw [if_neg hC]
    · unfold lambda_minus_corner_detection cvtColorBGR2GRAY; rw [if_neg hC]; rfl
    · unfold harris_corner_detection cvtColorBGR2GRAY; rw [if_neg hC]; rfl

/-- Witness for the amended C7 on concrete 2×2 images (3-channel accepted,
1-channel rejected). -/
theorem c7_channel_behavior_witness :
    (((imgTwo3.C = 3 ∨ imgTwo3.C = 4) →
      cvtColorBGR2GRAY imgTwo3 = .ok (toGray imgTwo3) ∧
      lambda_minus_corner_detection imgTwo3 1 (1/100)
        = .ok (lambdaSelect (lambdaResponseMap (toGray imgTwo3)) imgTwo3.H imgTwo3.W 1 (1/100)) ∧
      harris_corner_detection imgTwo3 1 (1/25) (1/100)
        = .ok (harrisSelect (harrisR (toGray imgTwo3) 1 (1/25)) imgTwo3.H imgTwo3.W (1/100))) ∧
     (imgTwo3.C ≠ 3 → imgTwo3.C ≠ 4 →
      cvtColorBGR2GRAY imgTwo3 = .error .shapeMismatch ∧
      lambda_minus_corner_detection imgTwo3 1 (1/100) = .error .shapeMismatch ∧
      harris_corner_detection imgTwo3 1 (1/25) (1/100) = .error .shapeMismatch)) ∧
    (((imgOne1.C = 3 ∨ imgOne1.C = 4) →
      cvtColorBGR2GRAY imgOne1 = .ok (toGray imgOne1) ∧
      lambda_minus_corner_detection imgOne1 1 (1/100)
        = .ok (lambdaSelect (lambdaResponseMap (toGray imgOne1)) imgOne1.H imgOne1.W 1 (1/100)) ∧
      harris_corner_detection imgOne1 1 (1/25) (1/100)
        = .ok (harrisSelect (harrisR (toGray imgOne1) 1 (1/25)) imgOne1.H imgOne1.W (1/100))) ∧
     (imgOne1.C ≠ 3 → imgOne1.C ≠ 4 →
      cvtColorBGR2GRAY imgOne1 = .error .shapeMismatch ∧
      lambda_minus_corner_detection imgOne1 1 (1/100) = .error .shapeMismatch ∧
      harris_corner_detection imgOne1 1 (1/25) (1/100) = .error .shapeMismatch)) :=
  ⟨c7_channel_behavior imgTwo3 1 (1/25) (1/100) (by norm_num [imgTwo3]) (by norm_num [imgTwo3]),
   c7_channel_behavior imgOne1 1 (1/25) (1/100) (by norm_num [imgOne1]) (by norm_num [imgOne1])⟩

/-- Claim C8: on an all-zero input image both response maps are identically
zero, the thresholds `th_percentage * max = 0` and, since no response is
strictly greater than `0`, both detectors return an empty corner list. -/
theorem c8_allzero_empty (img : Img) (w : ℕ) (k t : ℚ)
    (hC : img.C = 3 ∨ img.C = 4) (hz : ∀ y x c, img.px y x c = 0)
    (_hH : 1 ≤ img.H) (_hW : 1 ≤ img.W) :
    (∀ y x, lambdaResponseMap (toGray img) y x = 0) ∧
    (∀ y x, harrisR (toGray img) w k y x = 0) ∧
    lambda_minus_corner_detection img w t = .ok [] ∧
    harris_corner_detection img w k t = .ok [] := by
  have hg : ∀ y x, (toGray img).px y x = 0 := toGray_zero hz
  refine ⟨lambdaResponseMap_zero hg, harrisR_zero hg w k, ?_, ?_⟩
  · unfold lambda_minus_corner_detection cvtColorBGR2GRAY
    rw [if_pos hC]
    exact congrArg Except.ok (lambdaSelect_of_zero_map (lambdaResponseMap_zero hg))
  · unfold harris_corner_detection cvtColorBGR2GRAY
    rw [if_pos hC]
    exact congrArg Except.ok (harrisSelect_of_zero_map (harrisR_zero hg w k))

/-- Witness for C8 on a concrete 1×1 all-zero 3-channel image with the
default parameters `window_size = 5`, `k = 0.04`, `th_percentage = 0.01`. -/
theorem c8_allzero_empty_witness :
    (∀ y x, lambdaResponseMap (toGray imgZero3) y x = 0) ∧
    (∀ y x, harrisR (toGray imgZero3) 5 (1/25) y x = 0) ∧
    lambda_minus_corner_detection imgZero3 5 (1/100) = .ok [] ∧
    harris_corner_detection imgZero3 5 (1/25) (1/100) = .ok [] :=
  c8_allzero_empty imgZero3 5 (1/25) (1/100) (Or.inl rfl) (fun _ _ _ => rfl)
    (by norm_num [imgZero3]) (by norm_num [imgZero3])

/-- Claim C5 counterexample: the claim quantifies over every corner list
and describes the crop as the integer window
`[max(0, x - p/2), min(W, x + p/2))`.  For the 2×4 ramp image, the corner
`(-3, 1)` with `patch_size = 2` has window `[0, -2)`, which is empty and not
`2 × 2`, so per the claim the corner is discarded; the code instead resolves
the negative slice stop from the right end (`numpy` slicing) and returns the
2×2 patch at columns `[0, 2)`.  Also, for `patch_size = 0`, a corner far
beyond the right border (within `p/2 - 1 = -1` of it in the claim's
distance) still yields a (length-0) descriptor instead of being excluded. -/
theorem c5_extract_counterexample :
    extractDescriptors grayRamp24 [(-3, 1)] 2 = [[0, 1, 4, 5]] ∧
    (min ((4:ℤ)) (-3 + 1) - max 0 (-3 - 1) ≠ (2:ℤ)) ∧
    cropCorner grayOne 0 (5, 0) = some [] := by
  exact ⟨by decide, by decide, by decide⟩

/-- Claim C5 (amended): for every grayscale image, positive even
`patch_size p`, and corner list whose coordinates satisfy `x ≥ -p/2` and
`y ≥ -p/2` (so Python slice bounds agree with interval clamping), the
extractor crops the window `[max(0, x-p/2), min(W, x+p/2)) ×
[max(0, y-p/2), min(H, y+p/2))`, silently discards every corner whose patch
is not exactly `p × p`, and returns the row-major flattenings of the
surviving patches, each of length `p²`, preserving the relative order of
surviving corners; a corner at least `p/2` from every border yields a
descriptor and a corner within `p/2 - 1` of a border is excluded. -/
theorem c5_extract_descriptors (g : Gray) (corners : List (ℤ × ℤ)) (p : ℕ)
    (hp : p % 2 = 0) (hp0 : 0 < p)
    (hcs : ∀ c ∈ corners, (0:ℤ) ≤ c.1 + (p/2 : ℕ) ∧ (0:ℤ) ≤ c.2 + (p/2 : ℕ)) :
    (∀ d ∈ extractDescriptors g corners p, d.length = p * p) ∧
    (∀ c ∈ corners,
      ((cropCorner g p c).isSome ↔
        (((p/2 : ℕ) : ℤ) ≤ c.1 ∧ c.1 + (p/2 : ℕ) ≤ (g.W : ℤ) ∧
         ((p/2 : ℕ) : ℤ) ≤ c.2 ∧ c.2 + (p/2 : ℕ) ≤ (g.H : ℤ))) ∧
      (((p/2 : ℕ) : ℤ) ≤ c.1 → c.1 + (p/2 : ℕ) ≤ (g.W : ℤ) →
        ((p/2 : ℕ) : ℤ) ≤ c.2 → c.2 + (p/2 : ℕ) ≤ (g.H : ℤ) →
        cropCorner g p c = some ((List.range p).flatMap (fun r =>
          (List.range p).map (fun cc =>
            g.px ((c.2 - (p/2 : ℕ)).toNat + r) ((c.1 - (p/2 : ℕ)).toNat + cc))))) ∧
      ((c.1 < ((p/2 : ℕ) : ℤ) ∨ (g.W : ℤ) < c.1 + (p/2 : ℕ) ∨
        c.2 < ((p/2 : ℕ) : ℤ) ∨ (g.H : ℤ) < c.2 + (p/2 : ℕ)) →
        cropCorner g p c = none)) ∧
    extractDescriptors g corners p = corners.filterMap (cropCorner g p) ∧
    (∀ cs1 cs2, corners = cs1 ++ cs2 →
      extractDescriptors g corners p
        = extractDescriptors g cs1 p ++ extractDescriptors g cs2 p) := by
  refine ⟨?_, ?_, rfl, ?_⟩
  · intro d hd
    rw [extractDescriptors, List.mem_filterMap] at hd
    obtain ⟨c, _, hc⟩ := hd
    exact cropCorner_length hc
  · rintro ⟨x, y⟩ hc
    obtain ⟨hcx, hcy⟩ := hcs (x, y) hc
    dsimp only at hcx hcy ⊢
    exact ⟨cropCorner_isSome_iff hp hp0 hcx hcy,
      fun h1 h2 h3 h4 => cropCorner_eq_some hp h1 h2 h3 h4,
      fun h => cropCorner_eq_none hp hp0 hcx hcy h⟩
  · intro cs1 cs2 hsplit
    subst hsplit
    exact List.filterMap_append cs1 cs2 (cropCorner g p)

/-- Witness for the amended C5: corner `(2, 2)` with `patch_size 2` on the
4×4 ramp image. -/
theorem c5_extract_descriptors_witness :
    ((2:ℕ) % 2 = 0 ∧ (0:ℕ) < 2 ∧
      (∀ c ∈ [((2:ℤ), (2:ℤ))], (0:ℤ) ≤ c.1 + ((2:ℕ)/2 : ℕ) ∧ (0:ℤ) ≤ c.2 + ((2:ℕ)/2 : ℕ))) ∧
    ((∀ d ∈ extractDescriptors grayRamp44 [(2, 2)] 2, d.length = 2 * 2) ∧
    (∀ c ∈ [((2:ℤ), (2:ℤ))],
      ((cropCorner grayRamp44 2 c).isSome ↔
        ((((2:ℕ)/2 : ℕ) : ℤ) ≤ c.1 ∧ c.1 + ((2:ℕ)/2 : ℕ) ≤ (grayRamp44.W : ℤ) ∧
         (((2:ℕ)/2 : ℕ) : ℤ) ≤ c.2 ∧ c.2 + ((2:ℕ)/2 : ℕ) ≤ (grayRamp44.H : ℤ))) ∧
      ((((2:ℕ)/2 : ℕ) : ℤ) ≤ c.1 → c.1 + ((2:ℕ)/2 : ℕ) ≤ (grayRamp44.W : ℤ) →
        (((2:ℕ)/2 : ℕ) : ℤ) ≤ c.2 → c.2 + ((2:ℕ)/2 : ℕ) ≤ (grayRamp44.H : ℤ) →
        cropCorner grayRamp44 2 c = some ((List.range 2).flatMap (fun r =>
          (List.range 2).map (fun cc =>
            grayRamp44.px ((c.2 - ((2:ℕ)/2 : ℕ)).toNat + r)
              ((c.1 - ((2:ℕ)/2 : ℕ)).toNat + cc))))) ∧
      ((c.1 < (((2:ℕ)/2 : ℕ) : ℤ) ∨ (grayRamp44.W : ℤ) < c.1 + ((2:ℕ)/2 : ℕ) ∨
        c.2 < (((2:ℕ)/2 : ℕ) : ℤ) ∨ (grayRamp44.H : ℤ) < c.2 + ((2:ℕ)/2 : ℕ)) →
        cropCorner grayRamp44 2 c = none)) ∧
    extractDescriptors grayRamp44 [(2, 2)] 2
      = List.filterMap (cropCorner grayRamp44 2) [(2, 2)] ∧
    (∀ cs1 cs2, [((2:ℤ), (2:ℤ))] = cs1 ++ cs2 →
      extractDescriptors grayRamp44 [(2, 2)] 2
        = extractDescriptors grayRamp44 cs1 2 ++ extractDescriptors grayRamp44 cs2 2)) :=
  ⟨⟨by decide, by decide, by decide⟩,
    c5_extract_descriptors grayRamp44 [(2, 2)] 2 (by decide) (by decide) (by decide)⟩

/-- Claim C10 (evaluation at the failing input): the clamped slice bounds
are total — no out-of-range access occurs — but an out-of-bounds corner is
not always silently dropped: on the 2×6 ramp image the corner `(-5, 1)`
with `patch_size = 2` has `min(W, x + p/2) = -4`, which numpy resolves from
the right end, so the crop is the 2×2 patch at columns `[0, 2)`; it passes
the shape test and a descriptor from the wrong location is returned. -/
theorem c10_out_of_bounds_eval :
    extractDescriptors grayRamp26 [(-5, 1)] 2 = [[0, 1, 6, 7]] ∧
    cropCorner grayRamp26 2 (-5, 1) = some [0, 1, 6, 7] := by
  exact ⟨by decide, by decide⟩

/-- Claim C4 counterexample: the NCC best score is initialized to `-1`,
which is the bottom of the valid NCC range `[-1, 1]`, not strictly below
it.  Matching `A = [[1]]` against `B = [[-1]]` gives the single valid NCC
score `-1` (exact anti-correlation); it does not strictly exceed the
sentinel, so the descriptor is paired with no index at all instead of the
maximizing index `0`. -/
theorem c4_ncc_sentinel_counterexample :
    nccScore [(1:ℚ)] [(-1:ℚ)] = (-1, 1) ∧
    (dotProd [(1:ℚ)] [(-1:ℚ)] : ℝ)
      / (Real.sqrt (ssq [(1:ℚ)]) * Real.sqrt (ssq [(-1:ℚ)])) = -1 ∧
    match_features [[(1:ℚ)]] [[(-1:ℚ)]] .NCC = [(0, none)] := by
  refine ⟨by norm_num [nccScore, dotProd, ssq], ?_,
    by norm_num [match_features, matchAux, bestNCC, bestAux, nccScore, nccGtB, dotProd, ssq]⟩
  rw [show ssq [(1:ℚ)] = 1 by norm_num [ssq, dotProd],
    show dotProd [(1:ℚ)] [(-1:ℚ)] = -1 by norm_num [dotProd],
    show ssq [(-1:ℚ)] = 1 by norm_num [ssq, dotProd]]
  norm_num

/-- Claim C4 (amended): for non-empty descriptor sets with nonzero
descriptors, each descriptor of `A` is paired under SSD with the first
index of `B` minimizing `Σ(a_k - b_k)²` (the `+∞` initialization is beaten
by any finite score, and only strictly better scores replace the best, so
ties keep the earlier index); under NCC the best score starts at `-1`, the
bottom of the valid range, so the result is the first index strictly
maximizing `(a·b)/(‖a‖·‖b‖)` when some score exceeds `-1`, and no index at
all when every score equals `-1`. -/
theorem c4_match_best (A B : List (List ℚ)) (hB : B ≠ [])
    (hApos : ∀ a ∈ A, 0 < ssq a) (hBpos : ∀ b ∈ B, 0 < ssq b) :
    ∀ i, ∀ hi : i < A.length,
      (∃ j, ∃ hj : j < B.length,
        (match_features A B .SSD)[i]? = some (i, some j) ∧
        (∀ m, ∀ hm : m < B.length,
          ssdScore (A.get ⟨i, hi⟩) (B.get ⟨j, hj⟩)
            ≤ ssdScore (A.get ⟨i, hi⟩) (B.get ⟨m, hm⟩)) ∧
        (∀ m, ∀ hm : m < B.length, m < j →
          ssdScore (A.get ⟨i, hi⟩) (B.get ⟨j, hj⟩)
            < ssdScore (A.get ⟨i, hi⟩) (B.get ⟨m, hm⟩))) ∧
      (((match_features A B .NCC)[i]? = some (i, none) ∧
         (∀ m, ∀ hm : m < B.length,
           (dotProd (A.get ⟨i, hi⟩) (B.get ⟨m, hm⟩) : ℝ)
             / (Real.sqrt (ssq (A.get ⟨i, hi⟩)) * Real.sqrt (ssq (B.get ⟨m, hm⟩)))
             ≤ -1)) ∨
       (∃ j, ∃ hj : j < B.length,
         (match_features A B .NCC)[i]? = some (i, some j) ∧
         -1 < (dotProd (A.get ⟨i, hi⟩) (B.get ⟨j, hj⟩) : ℝ)
             / (Real.sqrt (ssq (A.get ⟨i, hi⟩)) * Real.sqrt (ssq (B.get ⟨j, hj⟩))) ∧
         (∀ m, ∀ hm : m < B.length,
           (dotProd (A.get ⟨i, hi⟩) (B.get ⟨m, hm⟩) : ℝ)
               / (Real.sqrt (ssq (A.get ⟨i, hi⟩)) * Real.sqrt (ssq (B.get ⟨m, hm⟩)))
             ≤ (dotProd (A.get ⟨i, hi⟩) (B.get ⟨j, hj⟩) : ℝ)
               / (Real.sqrt (ssq (A.get ⟨i, hi⟩)) * Real.sqrt (ssq (B.get ⟨j, hj⟩)))) ∧
         (∀ m, ∀ hm : m < B.length, m < j →
           (dotProd (A.get ⟨i, hi⟩) (B.get ⟨m, hm⟩) : ℝ)
               / (Real.sqrt (ssq (A.get ⟨i, hi⟩)) * Real.sqrt (ssq (B.get ⟨m, hm⟩)))
             < (dotProd (A.get ⟨i, hi⟩) (B.get ⟨j, hj⟩) : ℝ)
               / (Real.sqrt (ssq (A.get ⟨i, hi⟩)) * Real.sqrt (ssq (B.get ⟨j, hj⟩)))))) := by
  intro i hi
  constructor
  · obtain ⟨j, hj, heq, hmax, hfirst⟩ := bestSSD_spec (A.get ⟨i, hi⟩) B hB
    refine ⟨j, hj, ?_, hmax, hfirst⟩
    have hcell := matchAux_getElem B .SSD A 0 i hi
    rw [Nat.zero_add] at hcell
    rw [match_features, hcell]
    have hfst : (bestSSD (A.get ⟨i, hi⟩) B).1 = some j := by rw [heq]
    exact congrArg _ (congrArg _ hfst)
  · have hcell := matchAux_getElem B .NCC A 0 i hi
    rw [Nat.zero_add] at hcell
    rcases bestNCC_spec (A.get ⟨i, hi⟩) B (hApos _ (List.get_mem _ _ _)) hBpos with
      ⟨hnone, hall⟩ | ⟨j, hj, hsome, hgt, hmax, hfirst⟩
    · left
      refine ⟨?_, hall⟩
      rw [match_features, hcell]
      exact congrArg _ (congrArg _ hnone)
    · right
      refine ⟨j, hj, ?_, hgt, hmax, hfirst⟩
      rw [match_features, hcell]
      exact congrArg _ (congrArg _ hsome)

/-- Witness for the amended C4 with `A = B = [[1]]`. -/
theorem c4_match_best_witness :
    (([[(1:ℚ)]] : List (List ℚ)) ≠ [] ∧
      (∀ a ∈ [[(1:ℚ)]], 0 < ssq a) ∧ (∀ b ∈ [[(1:ℚ)]], 0 < ssq b)) ∧
    (∀ i, ∀ hi : i < ([[(1:ℚ)]] : List (List ℚ)).length,
      (∃ j, ∃ hj : j < ([[(1:ℚ)]] : List (List ℚ)).length,
        (match_features [[(1:ℚ)]] [[(1:ℚ)]] .SSD)[i]? = some (i, some j) ∧
        (∀ m, ∀ hm : m < ([[(1:ℚ)]] : List (List ℚ)).length,
          ssdScore (List.get [[(1:ℚ)]] ⟨i, hi⟩) (List.get [[(1:ℚ)]] ⟨j, hj⟩)
            ≤ ssdScore (List.get [[(1:ℚ)]] ⟨i, hi⟩) (List.get [[(1:ℚ)]] ⟨m, hm⟩)) ∧
        (∀ m, ∀ hm : m < ([[(1:ℚ)]] : List (List ℚ)).length, m < j →
          ssdScore (List.get [[(1:ℚ)]] ⟨i, hi⟩) (List.get [[(1:ℚ)]] ⟨j, hj⟩)
            < ssdScore (List.get [[(1:ℚ)]] ⟨i, hi⟩) (List.get [[(1:ℚ)]] ⟨m, hm⟩))) ∧
      (((match_features [[(1:ℚ)]] [[(1:ℚ)]] .NCC)[i]? = some (i, none) ∧
         (∀ m, ∀ hm : m < ([[(1:ℚ)]] : List (List ℚ)).length,
           (dotProd (List.get [[(1:ℚ)]] ⟨i, hi⟩) (List.get [[(1:ℚ)]] ⟨m, hm⟩) : ℝ)
             / (Real.sqrt (ssq (List.get [[(1:ℚ)]] ⟨i, hi⟩))
                 * Real.sqrt (ssq (List.get [[(1:ℚ)]] ⟨m, hm⟩))) ≤ -1)) ∨
       (∃ j, ∃ hj : j < ([[(1:ℚ)]] : List (List ℚ)).length,
         (match_features [[(1:ℚ)]] [[(1:ℚ)]] .NCC)[i]? = some (i, some j) ∧
         -1 < (dotProd (List.get [[(1:ℚ)]] ⟨i, hi⟩) (List.get [[(1:ℚ)]] ⟨j, hj⟩) : ℝ)
             / (Real.sqrt (ssq (List.get [[(1:ℚ)]] ⟨i, hi⟩))
                 * Real.sqrt (ssq (List.get [[(1:ℚ)]] ⟨j, hj⟩))) ∧
         (∀ m, ∀ hm : m < ([[(1:ℚ)]] : List (List ℚ)).length,
           (dotProd (List.get [[(1:ℚ)]] ⟨i, hi⟩) (List.get [[(1:ℚ)]] ⟨m, hm⟩) : ℝ)
               / (Real.sqrt (ssq (List.get [[(1:ℚ)]] ⟨i, hi⟩))
                   * Real.sqrt (ssq (List.get [[(1:ℚ)]] ⟨m, hm⟩)))
             ≤ (dotProd (List.get [[(1:ℚ)]] ⟨i, hi⟩) (List.get [[(1:ℚ)]] ⟨j, hj⟩) : ℝ)
               / (Real.sqrt (ssq (List.get [[(1:ℚ)]] ⟨i, hi⟩))
                   * Real.sqrt (ssq (List.get [[(1:ℚ)]] ⟨j, hj⟩)))) ∧
         (∀ m, ∀ hm : m < ([[(1:ℚ)]] : List (List ℚ)).length, m < j →
           (dotProd (List.get [[(1:ℚ)]] ⟨i, hi⟩) (List.get [[(1:ℚ)]] ⟨m, hm⟩) : ℝ)
               / (Real.sqrt (ssq (List.get [[(1:ℚ)]] ⟨i, hi⟩))
                   * Real.sqrt (ssq (List.get [[(1:ℚ)]] ⟨m, hm⟩)))
             < (dotProd (List.get [[(1:ℚ)]] ⟨i, hi⟩) (List.get [[(1:ℚ)]] ⟨j, hj⟩) : ℝ)
               / (Real.sqrt (ssq (List.get [[(1:ℚ)]] ⟨i, hi⟩))
                   * Real.sqrt (ssq (List.get [[(1:ℚ)]] ⟨j, hj⟩))))))) :=
  ⟨⟨by simp, fun a ha => by rw [List.mem_singleton.mp ha]; norm_num [ssq, dotProd],
    fun b hb => by rw [List.mem_singleton.mp hb]; norm_num [ssq, dotProd]⟩,
    c4_match_best [[(1:ℚ)]] [[(1:ℚ)]] (by simp)
      (fun a ha => by rw [List.mem_singleton.mp ha]; norm_num [ssq, dotProd])
      (fun b hb => by rw [List.mem_singleton.mp hb]; norm_num [ssq, dotProd])⟩

/-- Claim C6 counterexample: with the non-empty descriptor set
`B = [[-2]]`, matching `A = [[2]]` under NCC yields partner `none` — the
single NCC score is exactly `-1` and never replaces the `-1` sentinel — so
"the partner is an index into B whenever B is non-empty" is false.  A
second failing instance: a zero descriptor (`A = [[0]]`, `B = [[1]]`) has
float NCC score `0/0 = nan`, which never exceeds the sentinel either, so
the partner is again `none` with `B` non-empty. -/
theorem c6_ncc_none_counterexample :
    ([[(-2:ℚ)]] : List (List ℚ)) ≠ [] ∧
    match_features [[(2:ℚ)]] [[(-2:ℚ)]] .NCC = [(0, none)] ∧
    match_features [[(0:ℚ)]] [[(1:ℚ)]] .NCC = [(0, none)] := by
  refine ⟨by simp, ?_, ?_⟩
  · norm_num [match_features, matchAux, bestNCC, bestAux, nccScore, nccGtB, dotProd, ssq]
  · norm_num [match_features, matchAux, bestNCC, bestAux, nccScore, nccGtB, dotProd, ssq]

/-- Claim C6 (amended): for every pair of descriptor sets `A` (size `m`)
and `B`, the matcher returns exactly `m` entries; the `i`-th entry is
`(i, r)`, so output order matches the order of `A` and each element of `A`
gets exactly one entry; empty `A` gives the empty match list; `r` is
"no match" whenever `B` is empty; any returned index is an index into `B`;
under SSD with non-empty `B` the partner always exists; under NCC the
partner is "no match" exactly when every candidate score fails to exceed
the `-1` sentinel, that is, each candidate is either a zero-norm pairing
(`ssq a * ssq b = 0`, float score `0/0 = nan`) or has a negative dot
product whose square is at least `ssq a * ssq b` (real NCC score at most
`-1`, exact anti-correlation); with empty `B` the condition is vacuous. -/
theorem c6_match_shape (A B : List (List ℚ)) (m : MatchMethod) :
    (match_features A B m).length = A.length ∧
    (A = [] → match_features A B m = []) ∧
    (∀ i, ∀ hi : i < A.length, ∃ r : Option ℕ,
      (match_features A B m)[i]? = some (i, r) ∧
      (B = [] → r = none) ∧
      (∀ j, r = some j → j < B.length) ∧
      (m = .SSD → B ≠ [] → ∃ j, r = some j) ∧
      (m = .NCC → (r = none ↔
        ∀ jm, ∀ hm : jm < B.length,
          ssq (A.get ⟨i, hi⟩) * ssq (B.get ⟨jm, hm⟩) = 0 ∨
          (dotProd (A.get ⟨i, hi⟩) (B.get ⟨jm, hm⟩) < 0 ∧
            ssq (A.get ⟨i, hi⟩) * ssq (B.get ⟨jm, hm⟩)
              ≤ (dotProd (A.get ⟨i, hi⟩) (B.get ⟨jm, hm⟩))^2)))) := by
  refine ⟨matchAux_length B m A 0, ?_, ?_⟩
  · rintro rfl
    rfl
  · intro i hi
    refine ⟨(match m with
      | MatchMethod.SSD => (bestSSD (A.get ⟨i, hi⟩) B).1
      | MatchMethod.NCC => (bestNCC (A.get ⟨i, hi⟩) B).1), ?_, ?_, ?_, ?_, ?_⟩
    · have hcell := matchAux_getElem B m A 0 i hi
      rw [Nat.zero_add] at hcell
      exact hcell
    · rintro rfl
      cases m <;> rfl
    · intro j hj
      cases m with
      | SSD =>
        have hj2 : (bestSSD (A.get ⟨i, hi⟩) B).1 = some j := hj
        rcases bestAux_fst_cases ssdBetter
            (B.map (fun b => ((ssdScore (A.get ⟨i, hi⟩) b : ℚ) : WithTop ℚ))) 0
            (none, ⊤) with h | ⟨ii, hii, h⟩
        · rw [show (bestSSD (A.get ⟨i, hi⟩) B).1
              = (bestAux ssdBetter
                  (B.map (fun b => ((ssdScore (A.get ⟨i, hi⟩) b : ℚ) : WithTop ℚ))) 0
                  (none, ⊤)).1 from rfl, h] at hj2
          cases hj2
        · rw [show (bestSSD (A.get ⟨i, hi⟩) B).1
              = (bestAux ssdBetter
                  (B.map (fun b => ((ssdScore (A.get ⟨i, hi⟩) b : ℚ) : WithTop ℚ))) 0
                  (none, ⊤)).1 from rfl, h] at hj2
          injection hj2 with hj3
          rw [List.length_map] at hii
          omega
      | NCC =>
        have hj2 : (bestNCC (A.get ⟨i, hi⟩) B).1 = some j := hj
        rcases bestAux_fst_cases nccGtB (B.map (nccScore (A.get ⟨i, hi⟩))) 0
            (none, ((-1 : ℚ), (1 : ℚ))) with h | ⟨ii, hii, h⟩
        · rw [show (bestNCC (A.get ⟨i, hi⟩) B).1
              = (bestAux nccGtB (B.map (nccScore (A.get ⟨i, hi⟩))) 0
                  (none, ((-1 : ℚ), (1 : ℚ)))).1 from rfl, h] at hj2
          cases hj2
        · rw [show (bestNCC (A.get ⟨i, hi⟩) B).1
              = (bestAux nccGtB (B.map (nccScore (A.get ⟨i, hi⟩))) 0
                  (none, ((-1 : ℚ), (1 : ℚ)))).1 from rfl, h] at hj2
          injection hj2 with hj3
          rw [List.length_map] at hii
          omega
    · rintro rfl hB
      obtain ⟨j, hj, heq, _, _⟩ := bestSSD_spec (A.get ⟨i, hi⟩) B hB
      exact ⟨j, by show (bestSSD (A.get ⟨i, hi⟩) B).1 = some j; rw [heq]⟩
    · rintro rfl
      constructor
      · intro hnone jm hm
        have hnone2 : (bestAux nccGtB (B.map (nccScore (A.get ⟨i, hi⟩))) 0
            (none, ((-1 : ℚ), (1 : ℚ)))).1 = none := hnone
        have hfalse := bestAux_none_all_false nccGtB (B.map (nccScore (A.get ⟨i, hi⟩))) 0
          ((-1 : ℚ), (1 : ℚ)) hnone2 (nccScore (A.get ⟨i, hi⟩) (B.get ⟨jm, hm⟩))
          (List.mem_map_of_mem _ (List.get_mem _ _ _))
        rw [nccGtB, nccScore] at hfalse
        dsimp only at hfalse
        by_cases hz : ssq (A.get ⟨i, hi⟩) * ssq (B.get ⟨jm, hm⟩) ≤ 0
        · exact Or.inl (le_antisymm hz (mul_nonneg (ssq_nonneg _) (ssq_nonneg _)))
        · rw [if_neg hz, if_neg (by norm_num : ¬ (1:ℚ) ≤ 0)] at hfalse
          have hm1 : ¬ (0:ℚ) ≤ (-1:ℚ) := by norm_num
          rw [if_neg hm1, if_neg hm1] at hfalse
          by_cases hd : (0:ℚ) ≤ dotProd (A.get ⟨i, hi⟩) (B.get ⟨jm, hm⟩)
          · rw [if_pos hd] at hfalse
            cases hfalse
          · rw [if_neg hd] at hfalse
            have hnotlt := of_decide_eq_false hfalse
            refine Or.inr ⟨not_le.mp hd, ?_⟩
            nlinarith [not_lt.mp hnotlt]
      · intro hall
        have hfalse : ∀ s ∈ B.map (nccScore (A.get ⟨i, hi⟩)),
            nccGtB s ((-1 : ℚ), (1 : ℚ)) = false := by
          intro s hs
          rw [List.mem_map] at hs
          obtain ⟨b, hbB, rfl⟩ := hs
          obtain ⟨⟨jm, hm⟩, rfl⟩ := List.mem_iff_get.mp hbB
          rw [nccGtB, nccScore]
          dsimp only
          rcases hall jm hm with hz | ⟨hd, hsq⟩
          · rw [if_pos (le_of_eq hz)]
          · by_cases hz2 : ssq (A.get ⟨i, hi⟩) * ssq (B.get ⟨jm, hm⟩) ≤ 0
            · rw [if_pos hz2]
            · rw [if_neg hz2, if_neg (by norm_num : ¬ (1:ℚ) ≤ 0),
                if_neg (not_le.mpr hd), if_neg (by norm_num : ¬ (0:ℚ) ≤ (-1:ℚ))]
              exact decide_eq_false (by intro hcon; nlinarith)
        have hres := bestAux_all_false_none nccGtB (B.map (nccScore (A.get ⟨i, hi⟩))) 0
          ((-1 : ℚ), (1 : ℚ)) hfalse
        show (bestNCC (A.get ⟨i, hi⟩) B).1 = none
        rw [bestNCC, hres]

/-- Witness for the amended C6 with `A = [[3]]`, `B = [[4]]`, SSD. -/
theorem c6_match_shape_witness :
    (match_features [[(3:ℚ)]] [[(4:ℚ)]] .SSD).length
        = ([[(3:ℚ)]] : List (List ℚ)).length ∧
    (([[(3:ℚ)]] : List (List ℚ)) = [] → match_features [[(3:ℚ)]] [[(4:ℚ)]] .SSD = []) ∧
    (∀ i, ∀ hi : i < ([[(3:ℚ)]] : List (List ℚ)).length, ∃ r : Option ℕ,
      (match_features [[(3:ℚ)]] [[(4:ℚ)]] .SSD)[i]? = some (i, r) ∧
      (([[(4:ℚ)]] : List (List ℚ)) = [] → r = none) ∧
      (∀ j, r = some j → j < ([[(4:ℚ)]] : List (List ℚ)).length) ∧
      (MatchMethod.SSD = .SSD → ([[(4:ℚ)]] : List (List ℚ)) ≠ [] → ∃ j, r = some j) ∧
      (MatchMethod.SSD = .NCC → (r = none ↔
        ∀ jm, ∀ hm : jm < ([[(4:ℚ)]] : List (List ℚ)).length,
          ssq (List.get [[(3:ℚ)]] ⟨i, hi⟩) * ssq (List.get [[(4:ℚ)]] ⟨jm, hm⟩) = 0 ∨
          (dotProd (List.get [[(3:ℚ)]] ⟨i, hi⟩) (List.get [[(4:ℚ)]] ⟨jm, hm⟩) < 0 ∧
            ssq (List.get [[(3:ℚ)]] ⟨i, hi⟩) * ssq (List.get [[(4:ℚ)]] ⟨jm, hm⟩)
              ≤ (dotProd (List.get [[(3:ℚ)]] ⟨i, hi⟩) (List.get [[(4:ℚ)]] ⟨jm, hm⟩))^2)))) :=
  c6_match_shape [[(3:ℚ)]] [[(4:ℚ)]] .SSD

/-- Claim C9: matching a descriptor set of pairwise-distinct, equal-length
descriptors against itself under SSD pairs every descriptor with its own
index, with best score `0`. -/
theorem c9_ssd_self_match (A : List (List ℚ))
    (hdist : A.Pairwise (fun a b => a ≠ b))
    (hlen : ∀ a ∈ A, ∀ b ∈ A, a.length = b.length) :
    ∀ i, ∀ hi : i < A.length,
      bestSSD (A.get ⟨i, hi⟩) A = (some i, ((0 : ℚ) : WithTop ℚ)) ∧
      (match_features A A .SSD)[i]? = some (i, some i) := by
  intro i hi
  have hA : A ≠ [] := by
    intro h
    rw [h] at hi
    exact absurd hi (by simp)
  obtain ⟨j, hj, heq, hmax, hfirst⟩ := bestSSD_spec (A.get ⟨i, hi⟩) A hA
  have hji : j = i := by
    by_contra hne
    have h0 : ssdScore (A.get ⟨i, hi⟩) (A.get ⟨i, hi⟩) = 0 := ssdScore_self _
    have hle : ssdScore (A.get ⟨i, hi⟩) (A.get ⟨j, hj⟩) ≤ 0 := by
      have := hmax i hi
      rw [h0] at this
      exact this
    have hzero : ssdScore (A.get ⟨i, hi⟩) (A.get ⟨j, hj⟩) = 0 :=
      le_antisymm hle (ssdScore_nonneg _ _)
    have heqd : A.get ⟨i, hi⟩ = A.get ⟨j, hj⟩ :=
      eq_of_ssdScore_eq_zero
        (hlen _ (List.get_mem _ _ _) _ (List.get_mem _ _ _)) hzero
    have hpg := List.pairwise_iff_get.mp hdist
    rcases Nat.lt_or_ge j i with hji2 | hji2
    · exact hpg ⟨j, hj⟩ ⟨i, hi⟩ hji2 heqd.symm
    · have hij2 : i < j := by omega
      exact hpg ⟨i, hi⟩ ⟨j, hj⟩ hij2 heqd
  subst hji
  constructor
  · rw [heq, ssdScore_self]
  · have hcell := matchAux_getElem A .SSD A 0 j hi
    rw [Nat.zero_add] at hcell
    rw [match_features, hcell]
    have hfst : (bestSSD (A.get ⟨j, hi⟩) A).1 = some j := by rw [heq]
    exact congrArg _ (congrArg _ hfst)

/-- Witness for C9 with `A = [[0], [7]]`. -/
theorem c9_ssd_self_match_witness :
    (([[(0:ℚ)], [(7:ℚ)]] : List (List ℚ)).Pairwise (fun a b => a ≠ b) ∧
      (∀ a ∈ [[(0:ℚ)], [(7:ℚ)]], ∀ b ∈ [[(0:ℚ)], [(7:ℚ)]], a.length = b.length)) ∧
    ∀ i, ∀ hi : i < ([[(0:ℚ)], [(7:ℚ)]] : List (List ℚ)).length,
      bestSSD (List.get [[(0:ℚ)], [(7:ℚ)]] ⟨i, hi⟩) [[(0:ℚ)], [(7:ℚ)]]
          = (some i, ((0 : ℚ) : WithTop ℚ)) ∧
      (match_features [[(0:ℚ)], [(7:ℚ)]] [[(0:ℚ)], [(7:ℚ)]] .SSD)[i]? = some (i, some i) :=
  ⟨⟨by norm_num, by norm_num⟩,
    c9_ssd_self_match [[(0:ℚ)], [(7:ℚ)]] (by norm_num) (by norm_num)⟩

end Visio
